import Mathlib

/-!
Verification development for the KDS v5 order-management backend
(`src/server.js`).  The server keeps an `orders` table in SQLite, mutates it
through four HTTP handlers (place order, add items, change status, bill) and
broadcasts a socket event after each successful mutation.  This file embeds
the data model, the SQL statements actually issued by the handlers, and the
JavaScript control flow of each handler as executable Lean definitions, and
proves the specification claims about them.
-/

namespace KDS

/-! ## JSON values

Request bodies are produced by `body-parser`'s JSON middleware and order
line items are persisted with `JSON.stringify` / recovered with `JSON.parse`
(`server.js` lines 89, 96, 110, 115, 125, 134).  JSON values are embedded as
the `Json` type below.  Numbers are modelled as integers: JavaScript numbers
are IEEE-754 doubles, and only the integral fragment is embedded here.
Object fields are kept as an ordered association list, matching JavaScript
property-insertion order. -/

inductive Json where
  | null : Json
  | bool : Bool → Json
  | num : Int → Json
  | str : String → Json
  | arr : List Json → Json
  | obj : List (String × Json) → Json
deriving Repr

/-! ## Serialization: JSON.stringify -/

/-- Decimal digit characters, used when printing numbers. -/
def digitChar (n : Nat) : Char :=
  match n with
  | 0 => '0' | 1 => '1' | 2 => '2' | 3 => '3' | 4 => '4'
  | 5 => '5' | 6 => '6' | 7 => '7' | 8 => '8' | 9 => '9'
  | _ => '0'

/-- Lower-case hexadecimal digit characters, used in `\u00xx` escapes. -/
def hexDigitChar (n : Nat) : Char :=
  match n with
  | 0 => '0' | 1 => '1' | 2 => '2' | 3 => '3' | 4 => '4'
  | 5 => '5' | 6 => '6' | 7 => '7' | 8 => '8' | 9 => '9'
  | 10 => 'a' | 11 => 'b' | 12 => 'c' | 13 => 'd' | 14 => 'e' | 15 => 'f'
  | _ => '0'

/-- Decimal representation of a natural number, most significant digit
first, as printed by `JSON.stringify` for non-negative integers. -/
def natChars (n : Nat) : List Char :=
  if _ : n < 10 then [digitChar n]
  else natChars (n / 10) ++ [digitChar (n % 10)]
termination_by n
decreasing_by exact Nat.div_lt_self (by omega) (by omega)

/-- Decimal representation of an integer (`JSON.stringify` number output,
restricted to the integral fragment). -/
def intChars (i : Int) : List Char :=
  if i < 0 then '-' :: natChars i.natAbs else natChars i.toNat

/-- String-escaping performed by `JSON.stringify`: the quote and backslash,
the short escapes for backspace, form feed, newline, carriage return and
tab, and `\u00xx` for the remaining control characters. -/
def escapeChar (c : Char) : List Char :=
  if c = '"' then ['\\', '"']
  else if c = '\\' then ['\\', '\\']
  else if c = Char.ofNat 8 then ['\\', 'b']
  else if c = Char.ofNat 12 then ['\\', 'f']
  else if c = '\n' then ['\\', 'n']
  else if c = '\r' then ['\\', 'r']
  else if c = '\t' then ['\\', 't']
  else if c.toNat < 32 then
    ['\\', 'u', '0', '0', hexDigitChar (c.toNat / 16), hexDigitChar (c.toNat % 16)]
  else [c]

/-- Escape every character of a string body. -/
def escapeList : List Char → List Char
  | [] => []
  | c :: cs => escapeChar c ++ escapeList cs

/-- The keyword `null` as characters. -/
def nullChars : List Char := ['n', 'u', 'l', 'l']

/-- The keyword printed for a boolean. -/
def boolChars (b : Bool) : List Char :=
  if b then ['t', 'r', 'u', 'e'] else ['f', 'a', 'l', 's', 'e']

mutual

/-- Characters of `JSON.stringify` output for a value. -/
def jChars : Json → List Char
  | .null => nullChars
  | .bool b => boolChars b
  | .num i => intChars i
  | .str s => '"' :: escapeList s.data ++ ['"']
  | .arr [] => ['[', ']']
  | .arr (x :: xs) => '[' :: (jChars x ++ jElems xs)
  | .obj [] => ['{', '}']
  | .obj (m :: ms) =>
    '{' :: (('"' :: escapeList m.1.data ++ ['"', ':']) ++ jChars m.2 ++ jMembers ms)

/-- Characters after the first array element: `,v,...,v]`. -/
def jElems : List Json → List Char
  | [] => [']']
  | x :: xs => ',' :: jChars x ++ jElems xs

/-- Characters after the first object member: `,"k":v,...\x7d`. -/
def jMembers : List (String × Json) → List Char
  | [] => ['}']
  | m :: ms =>
    ',' :: (('"' :: escapeList m.1.data ++ ['"', ':']) ++ jChars m.2 ++ jMembers ms)

end

/-- `JSON.stringify`, as used to persist the `items` array into the
`items_json` column. -/
def jsonStringify (v : Json) : String := ⟨jChars v⟩

/-! ## Parsing: JSON.parse

The parser consumes a character list and is indexed by fuel so that all
recursion is structural.  It accepts exactly the serialized forms produced
above (the program only ever parses strings previously written by
`JSON.stringify`, plus the constant `[]`). -/

/-- Decimal digit test. -/
def isDigitC (c : Char) : Bool := 48 ≤ c.toNat && c.toNat ≤ 57

/-- Value of a decimal digit character. -/
def digitVal (c : Char) : Nat := c.toNat - 48

/-- Value of a hexadecimal digit character, if it is one. -/
def parseHexDigit (c : Char) : Option Nat :=
  if isDigitC c then some (c.toNat - 48)
  else if 97 ≤ c.toNat && c.toNat ≤ 102 then some (c.toNat - 87)
  else if 65 ≤ c.toNat && c.toNat ≤ 70 then some (c.toNat - 55)
  else none

/-- Consume a run of decimal digits, accumulating their value. -/
def parseDigits : List Char → Nat → Nat × List Char
  | [], acc => (acc, [])
  | c :: cs, acc =>
    if isDigitC c then parseDigits cs (acc * 10 + digitVal c) else (acc, c :: cs)

/-- Match a literal character sequence, returning the remaining input. -/
def dropLit : List Char → List Char → Option (List Char)
  | [], l => some l
  | p :: ps, c :: cs => if c = p then dropLit ps cs else none
  | _ :: _, [] => none

/-- Parse the body of a JSON string after the opening quote, undoing the
escapes of `escapeChar`; `acc` holds the decoded characters in reverse. -/
def parseStringBody : List Char → List Char → Option (String × List Char)
  | [], _ => none
  | c :: cs, acc =>
    if c = '"' then some (⟨acc.reverse⟩, cs)
    else if c = '\\' then
      match cs with
      | [] => none
      | e :: cs' =>
        if e = '"' then parseStringBody cs' ('"' :: acc)
        else if e = '\\' then parseStringBody cs' ('\\' :: acc)
        else if e = '/' then parseStringBody cs' ('/' :: acc)
        else if e = 'b' then parseStringBody cs' (Char.ofNat 8 :: acc)
        else if e = 'f' then parseStringBody cs' (Char.ofNat 12 :: acc)
        else if e = 'n' then parseStringBody cs' ('\n' :: acc)
        else if e = 'r' then parseStringBody cs' ('\r' :: acc)
        else if e = 't' then parseStringBody cs' ('\t' :: acc)
        else if e = 'u' then
          match cs' with
          | h1 :: h2 :: h3 :: h4 :: cs'' =>
            match parseHexDigit h1, parseHexDigit h2, parseHexDigit h3, parseHexDigit h4 with
            | some a, some b, some c2, some d =>
              parseStringBody cs'' (Char.ofNat (((a * 16 + b) * 16 + c2) * 16 + d) :: acc)
            | _, _, _, _ => none
          | _ => none
        else none
    else parseStringBody cs (c :: acc)

/-- Parser mode: a whole value, the tail of an array, or the tail of an
object; the accumulators hold already-parsed elements in reverse. -/
inductive PMode where
  | val : PMode
  | elems : List Json → PMode
  | members : List (String × Json) → PMode

/-- Fuel-indexed JSON parser.  In `val` mode it parses one value and returns
it with the unconsumed input. -/
def parseF : Nat → PMode → List Char → Option (Json × List Char)
  | 0, _, _ => none
  | fuel + 1, .val, l =>
    match l with
    | [] => none
    | c :: cs =>
      if c = 'n' then (dropLit ['u', 'l', 'l'] cs).map (fun r => (Json.null, r))
      else if c = 't' then (dropLit ['r', 'u', 'e'] cs).map (fun r => (Json.bool true, r))
      else if c = 'f' then (dropLit ['a', 'l', 's', 'e'] cs).map (fun r => (Json.bool false, r))
      else if c = '"' then (parseStringBody cs []).map (fun p => (Json.str p.1, p.2))
      else if c = '[' then
        match cs with
        | [] => none
        | c' :: cs' => if c' = ']' then some (.arr [], cs') else parseF fuel (.elems []) cs
      else if c = '{' then
        match cs with
        | [] => none
        | c' :: cs' => if c' = '}' then some (.obj [], cs') else parseF fuel (.members []) cs
      else if c = '-' then
        match cs with
        | [] => none
        | d :: _ =>
          if isDigitC d then
            let p := parseDigits cs 0
            some (.num (-(p.1 : Int)), p.2)
          else none
      else if isDigitC c then
        let p := parseDigits l 0
        some (.num (p.1 : Int), p.2)
      else none
  | fuel + 1, .elems acc, l =>
    match parseF fuel .val l with
    | none => none
    | some (v, r) =>
      match r with
      | [] => none
      | c :: cs =>
        if c = ',' then parseF fuel (.elems (v :: acc)) cs
        else if c = ']' then some (.arr (v :: acc).reverse, cs)
        else none
  | fuel + 1, .members acc, l =>
    match l with
    | [] => none
    | c :: cs =>
      if c = '"' then
        match parseStringBody cs [] with
        | none => none
        | some (k, r) =>
          match r with
          | [] => none
          | c' :: cs' =>
            if c' = ':' then
              match parseF fuel .val cs' with
              | none => none
              | some (v, r2) =>
                match r2 with
                | [] => none
                | c2 :: cs'' =>
                  if c2 = ',' then parseF fuel (.members ((k, v) :: acc)) cs''
                  else if c2 = '}' then some (.obj ((k, v) :: acc).reverse, cs'')
                  else none
            else none
      else none

/-- `JSON.parse`: parse the whole string as one value, with fuel larger than
the input length; trailing characters are an error. -/
def jsonParse (s : String) : Option Json :=
  match parseF (s.data.length + 1) .val s.data with
  | some (v, []) => some v
  | _ => none

/-! ## Round-trip lemmas: parsing recovers what stringify printed -/

/-- True when the input does not start with a decimal digit, so that a
number parse stops exactly at the serialized boundary. -/
def headNotDigit : List Char → Bool
  | [] => true
  | c :: _ => !(isDigitC c)

/-- Value accumulated by `parseDigits` over a digit run. -/
def digitsToNat (l : List Char) (acc : Nat) : Nat :=
  l.foldl (fun a c => a * 10 + digitVal c) acc

theorem isDigitC_digitChar (k : Nat) : isDigitC (digitChar k) = true := by
  unfold digitChar
  split <;> rfl

theorem digitVal_digitChar (k : Nat) (h : k < 10) : digitVal (digitChar k) = k := by
  interval_cases k <;> rfl

theorem natChars_spec (n : Nat) :
    (∀ c ∈ natChars n, isDigitC c = true) ∧ natChars n ≠ [] ∧
      ∀ acc, digitsToNat (natChars n) acc = acc * 10 ^ (natChars n).length + n := by
  induction n using Nat.strong_induction_on with
  | _ n ih =>
    rw [natChars]
    split
    · rename_i h
      refine ⟨?_, by simp, ?_⟩
      · intro c hc
        simp at hc
        simp [hc, isDigitC_digitChar]
      · intro acc
        simp only [digitsToNat, List.foldl_cons, List.foldl_nil, List.length_singleton,
          pow_one, digitVal_digitChar n h]
    · rename_i h
      have hlt : n / 10 < n := Nat.div_lt_self (by omega) (by omega)
      obtain ⟨ihd, ihne, ihval⟩ := ih (n / 10) hlt
      refine ⟨?_, by simp, ?_⟩
      · intro c hc
        simp at hc
        rcases hc with hc | hc
        · exact ihd c hc
        · simp [hc, isDigitC_digitChar]
      · intro acc
        have hfold : digitsToNat (natChars (n / 10) ++ [digitChar (n % 10)]) acc =
            digitsToNat (natChars (n / 10)) acc * 10 + digitVal (digitChar (n % 10)) := by
          simp [digitsToNat, List.foldl_append]
        rw [hfold, ihval acc, digitVal_digitChar (n % 10) (by omega)]
        have hpow : (10 : Nat) ^ ((natChars (n / 10)).length + 1) =
            10 ^ (natChars (n / 10)).length * 10 := pow_succ 10 _
        simp [hpow, ← mul_assoc]
        omega

theorem parseDigits_append (ds : List Char) (hd : ∀ c ∈ ds, isDigitC c = true) :
    ∀ rest, headNotDigit rest = true → ∀ acc,
      parseDigits (ds ++ rest) acc = (digitsToNat ds acc, rest) := by
  induction ds with
  | nil =>
    intro rest hrest acc
    cases rest with
    | nil => simp [parseDigits, digitsToNat]
    | cons c cs =>
      have : isDigitC c = false := by
        simp [headNotDigit] at hrest
        exact hrest
      simp [parseDigits, this, digitsToNat]
  | cons d ds ih =>
    intro rest hrest acc
    have hdd : isDigitC d = true := hd d (by simp)
    have : parseDigits ((d :: ds) ++ rest) acc = parseDigits (ds ++ rest) (acc * 10 + digitVal d) := by
      simp [parseDigits, hdd]
    rw [this, ih (fun c hc => hd c (by simp [hc])) rest hrest]
    simp [digitsToNat]

theorem parseHexDigit_hexDigitChar (k : Nat) (h : k < 16) :
    parseHexDigit (hexDigitChar k) = some k := by
  interval_cases k <;> rfl

theorem parseStringBody_step (c : Char) (rest acc : List Char) :
    parseStringBody (escapeChar c ++ rest) acc = parseStringBody rest (c :: acc) := by
  by_cases h1 : c = '"'
  · subst h1
    rw [show escapeChar '"' = ['\\', '"'] by simp [escapeChar]]
    simp only [List.cons_append, List.nil_append]
    conv_lhs => rw [parseStringBody.eq_def]
    simp
  by_cases h2 : c = '\\'
  · subst h2
    rw [show escapeChar '\\' = ['\\', '\\'] by simp [escapeChar]]
    simp only [List.cons_append, List.nil_append]
    conv_lhs => rw [parseStringBody.eq_def]
    simp
  by_cases h3 : c = Char.ofNat 8
  · subst h3
    rw [show escapeChar (Char.ofNat 8) = ['\\', 'b'] by simp [escapeChar]]
    simp only [List.cons_append, List.nil_append]
    conv_lhs => rw [parseStringBody.eq_def]
    simp
  by_cases h4 : c = Char.ofNat 12
  · subst h4
    rw [show escapeChar (Char.ofNat 12) = ['\\', 'f'] by simp [escapeChar]]
    simp only [List.cons_append, List.nil_append]
    conv_lhs => rw [parseStringBody.eq_def]
    simp
  by_cases h5 : c = '\n'
  · subst h5
    rw [show escapeChar '\n' = ['\\', 'n'] by simp [escapeChar]]
    simp only [List.cons_append, List.nil_append]
    conv_lhs => rw [parseStringBody.eq_def]
    simp
  by_cases h6 : c = '\r'
  · subst h6
    rw [show escapeChar '\r' = ['\\', 'r'] by simp [escapeChar]]
    simp only [List.cons_append, List.nil_append]
    conv_lhs => rw [parseStringBody.eq_def]
    simp
  by_cases h7 : c = '\t'
  · subst h7
    rw [show escapeChar '\t' = ['\\', 't'] by simp [escapeChar]]
    simp only [List.cons_append, List.nil_append]
    conv_lhs => rw [parseStringBody.eq_def]
    simp
  by_cases h8 : c.toNat < 32
  · have hdiv : c.toNat / 16 < 16 := by omega
    have hmod : c.toNat % 16 < 16 := by omega
    have h0 : parseHexDigit '0' = some 0 := rfl
    have hchar : c.toNat / 16 * 16 + c.toNat % 16 = c.toNat := by omega
    rw [show escapeChar c =
      ['\\', 'u', '0', '0', hexDigitChar (c.toNat / 16), hexDigitChar (c.toNat % 16)] by
        simp [escapeChar, h1, h2, h3, h4, h5, h6, h7, h8]]
    simp only [List.cons_append, List.nil_append]
    conv_lhs => rw [parseStringBody.eq_def]
    simp [h0, parseHexDigit_hexDigitChar _ hdiv, parseHexDigit_hexDigitChar _ hmod]
    simp [hchar, Char.ofNat_toNat]
  · have hesc : escapeChar c = [c] := by
      simp [escapeChar, h1, h2, h3, h4, h5, h6, h7, h8]
    rw [hesc]
    rw [show ([c] ++ rest) = c :: rest from rfl]
    conv_lhs => rw [parseStringBody.eq_def]
    simp [h1, h2]

theorem parseStringBody_escape (s : List Char) :
    ∀ acc rest, parseStringBody (escapeList s ++ ('"' :: rest)) acc =
      some (⟨acc.reverse ++ s⟩, rest) := by
  induction s with
  | nil =>
    intro acc rest
    simp only [escapeList, List.nil_append]
    conv_lhs => rw [parseStringBody.eq_def]
    simp
  | cons c cs ih =>
    intro acc rest
    have hassoc : escapeList (c :: cs) ++ ('"' :: rest) =
        escapeChar c ++ (escapeList cs ++ ('"' :: rest)) := by
      simp [escapeList, List.append_assoc]
    rw [hassoc, parseStringBody_step, ih]
    simp

/-- Characters that can begin the serialized form of a value. -/
def startOk (c : Char) : Bool :=
  c = 'n' || c = 't' || c = 'f' || c = '"' || c = '[' || c = '{' || c = '-' || isDigitC c

theorem jChars_start (v : Json) : ∃ h t, jChars v = h :: t ∧ startOk h = true := by
  cases v with
  | null => exact ⟨'n', _, rfl, by decide⟩
  | bool b => cases b with
    | true => exact ⟨'t', _, rfl, by decide⟩
    | false => exact ⟨'f', _, rfl, by decide⟩
  | num i =>
    simp only [jChars, intChars]
    split
    · exact ⟨'-', _, rfl, by decide⟩
    · obtain ⟨hdig, hne, -⟩ := natChars_spec i.toNat
      cases hnc : natChars i.toNat with
      | nil => exact absurd hnc hne
      | cons d ds =>
        refine ⟨d, ds, rfl, ?_⟩
        have : isDigitC d = true := hdig d (by simp [hnc])
        simp [startOk, this]
  | str s => exact ⟨'"', _, rfl, by decide⟩
  | arr l => cases l with
    | nil => exact ⟨'[', _, rfl, by decide⟩
    | cons x xs => exact ⟨'[', _, rfl, by decide⟩
  | obj l => cases l with
    | nil => exact ⟨'{', _, rfl, by decide⟩
    | cons m ms => exact ⟨'{', _, rfl, by decide⟩

theorem jChars_len_pos (v : Json) : 0 < (jChars v).length := by
  obtain ⟨h, t, he, -⟩ := jChars_start v
  simp [he]

theorem jElems_len_pos (vs : List Json) : 0 < (jElems vs).length := by
  cases vs <;> simp [jElems]

theorem jMembers_len_pos (ms : List (String × Json)) : 0 < (jMembers ms).length := by
  cases ms <;> simp [jMembers]

theorem headNotDigit_jElems (vs : List Json) (rest : List Char) :
    headNotDigit (jElems vs ++ rest) = true := by
  cases vs <;> simp [jElems, headNotDigit] <;> decide

theorem headNotDigit_jMembers (ms : List (String × Json)) (rest : List Char) :
    headNotDigit (jMembers ms ++ rest) = true := by
  cases ms <;> simp [jMembers, headNotDigit] <;> decide

theorem isDigitC_not_special (x : Char) (h : isDigitC x = true) :
    x ≠ 'n' ∧ x ≠ 't' ∧ x ≠ 'f' ∧ x ≠ '"' ∧ x ≠ '[' ∧ x ≠ '{' ∧ x ≠ '-' := by
  refine ⟨?_, ?_, ?_, ?_, ?_, ?_, ?_⟩ <;> (rintro rfl; exact absurd h (by decide))


/-! One-step unfolding equations for the parser; each holds definitionally. -/

theorem parseF_val_cons (fuel : Nat) (c : Char) (cs : List Char) :
    parseF (fuel + 1) .val (c :: cs) =
      (if c = 'n' then (dropLit ['u', 'l', 'l'] cs).map (fun r => (Json.null, r))
       else if c = 't' then (dropLit ['r', 'u', 'e'] cs).map (fun r => (Json.bool true, r))
       else if c = 'f' then (dropLit ['a', 'l', 's', 'e'] cs).map (fun r => (Json.bool false, r))
       else if c = '"' then (parseStringBody cs []).map (fun p => (Json.str p.1, p.2))
       else if c = '[' then
         match cs with
         | [] => none
         | c' :: cs' => if c' = ']' then some (.arr [], cs') else parseF fuel (.elems []) cs
       else if c = '{' then
         match cs with
         | [] => none
         | c' :: cs' => if c' = '}' then some (.obj [], cs') else parseF fuel (.members []) cs
       else if c = '-' then
         match cs with
         | [] => none
         | d :: _ =>
           if isDigitC d then
             let p := parseDigits cs 0
             some (.num (-(p.1 : Int)), p.2)
           else none
       else if isDigitC c then
         let p := parseDigits (c :: cs) 0
         some (.num (p.1 : Int), p.2)
       else none) := rfl

theorem parseF_elems_step (fuel : Nat) (acc : List Json) (l : List Char) :
    parseF (fuel + 1) (.elems acc) l =
      match parseF fuel .val l with
      | none => none
      | some (v, r) =>
        match r with
        | [] => none
        | c :: cs =>
          if c = ',' then parseF fuel (.elems (v :: acc)) cs
          else if c = ']' then some (.arr (v :: acc).reverse, cs)
          else none := rfl

theorem parseF_members_cons (fuel : Nat) (acc : List (String × Json)) (c : Char)
    (cs : List Char) :
    parseF (fuel + 1) (.members acc) (c :: cs) =
      (if c = '"' then
        match parseStringBody cs [] with
        | none => none
        | some (k, r) =>
          match r with
          | [] => none
          | c' :: cs' =>
            if c' = ':' then
              match parseF fuel .val cs' with
              | none => none
              | some (v, r2) =>
                match r2 with
                | [] => none
                | c2 :: cs'' =>
                  if c2 = ',' then parseF fuel (.members ((k, v) :: acc)) cs''
                  else if c2 = '}' then some (.obj ((k, v) :: acc).reverse, cs'')
                  else none
            else none
      else none) := rfl

theorem parseF_complete : ∀ fuel : Nat,
    (∀ (v : Json) (rest : List Char), (jChars v).length < fuel → headNotDigit rest = true →
      parseF fuel .val (jChars v ++ rest) = some (v, rest)) ∧
    (∀ (v : Json) (vs : List Json) (acc : List Json) (rest : List Char),
      (jChars v).length + (jElems vs).length < fuel →
      parseF fuel (.elems acc) (jChars v ++ (jElems vs ++ rest)) =
        some (.arr (acc.reverse ++ v :: vs), rest)) ∧
    (∀ (k : String) (v : Json) (ms : List (String × Json))
        (acc : List (String × Json)) (rest : List Char),
      (escapeList k.data).length + 3 + (jChars v).length + (jMembers ms).length < fuel →
      parseF fuel (.members acc)
          (('"' :: escapeList k.data ++ ['"', ':']) ++ (jChars v ++ (jMembers ms ++ rest))) =
        some (.obj (acc.reverse ++ (k, v) :: ms), rest)) := by
  intro fuel
  induction fuel with
  | zero =>
    refine ⟨?_, ?_, ?_⟩
    · intro v rest h _; omega
    · intro v vs acc rest h; omega
    · intro k v ms acc rest h; omega
  | succ fuel ih =>
    obtain ⟨ihP, ihQ, ihR⟩ := ih
    refine ⟨?_, ?_, ?_⟩
    · -- one value
      intro v rest hlen hrest
      cases v with
      | null =>
        simp only [jChars, nullChars, List.cons_append]
        rw [parseF_val_cons]
        simp [dropLit]
      | bool b =>
        cases b with
        | true =>
          simp only [jChars, boolChars, if_true, List.cons_append]
          rw [parseF_val_cons]
          simp [dropLit]
        | false =>
          simp only [jChars, boolChars, Bool.false_eq_true, if_false, List.cons_append]
          rw [parseF_val_cons]
          simp [dropLit]
      | num i =>
        simp only [jChars, intChars]
        split
        · -- negative
          rename_i hneg
          obtain ⟨hdig, hne, hval⟩ := natChars_spec i.natAbs
          cases hnc : natChars i.natAbs with
          | nil => exact absurd hnc hne
          | cons d ds =>
            have hd0 : isDigitC d = true := hdig d (by simp [hnc])
            have hpd : parseDigits (d :: (ds ++ rest)) 0 = (digitsToNat (d :: ds) 0, rest) := by
              have := parseDigits_append (d :: ds) (fun c hc => hdig c (hnc ▸ hc)) rest hrest 0
              simpa using this
            have hvv : digitsToNat (d :: ds) 0 = i.natAbs := by
              have := hval 0
              rw [hnc] at this
              simpa using this
            simp only [List.cons_append]
            rw [parseF_val_cons]
            simp [hd0, hpd, hvv]
            rw [abs_of_nonpos (by omega : i ≤ 0)]
            omega
        · -- non-negative
          rename_i hneg
          obtain ⟨hdig, hne, hval⟩ := natChars_spec i.toNat
          cases hnc : natChars i.toNat with
          | nil => exact absurd hnc hne
          | cons d ds =>
            have hd0 : isDigitC d = true := hdig d (by simp [hnc])
            obtain ⟨n1, n2, n3, n4, n5, n6, n7⟩ := isDigitC_not_special d hd0
            have hpd : parseDigits (d :: (ds ++ rest)) 0 = (digitsToNat (d :: ds) 0, rest) := by
              have := parseDigits_append (d :: ds) (fun c hc => hdig c (hnc ▸ hc)) rest hrest 0
              simpa using this
            have hvv : digitsToNat (d :: ds) 0 = i.toNat := by
              have := hval 0
              rw [hnc] at this
              simpa using this
            have hiv : ((i.toNat : Nat) : Int) = i := Int.toNat_of_nonneg (by omega)
            simp only [List.cons_append]
            rw [parseF_val_cons]
            simp [hd0, n1, n2, n3, n4, n5, n6, n7, hpd, hvv, hiv]
      | str s =>
        have hps : parseStringBody (escapeList s.data ++ ('"' :: rest)) [] =
            some (⟨s.data⟩, rest) := by
          have := parseStringBody_escape s.data [] rest
          simpa using this
        simp only [jChars, List.cons_append, List.append_assoc, List.singleton_append]
        rw [parseF_val_cons]
        simp [hps]
      | arr l =>
        cases l with
        | nil =>
          simp only [jChars, List.cons_append, List.nil_append]
          rw [parseF_val_cons]
          simp
        | cons x xs =>
          simp only [jChars, List.cons_append, List.append_assoc]
          simp only [jChars, List.length_cons, List.length_append] at hlen
          obtain ⟨h, t, he, hok⟩ := jChars_start x
          have hne1 : h ≠ ']' := by rintro rfl; exact absurd hok (by decide)
          have hQ := ihQ x xs [] rest (by omega)
          rw [he] at hQ ⊢
          simp only [List.cons_append, List.reverse_nil, List.nil_append] at hQ ⊢
          rw [parseF_val_cons]
          simp [hne1, hQ]
      | obj l =>
        cases l with
        | nil =>
          simp only [jChars, List.cons_append, List.nil_append]
          rw [parseF_val_cons]
          simp
        | cons m ms =>
          simp only [jChars, List.cons_append, List.append_assoc, List.nil_append]
          simp only [jChars, List.length_cons, List.length_nil, List.length_append] at hlen
          have hR := ihR m.1 m.2 ms [] rest (by omega)
          simp only [List.cons_append, List.append_assoc, List.nil_append,
            List.reverse_nil] at hR
          rw [parseF_val_cons]
          simp [hR]
    · -- array elements
      intro v vs acc rest hlen
      have hlv : (jChars v).length < fuel := by
        have := jElems_len_pos vs
        omega
      have hP := ihP v (jElems vs ++ rest) hlv (headNotDigit_jElems vs rest)
      rw [parseF_elems_step, hP]
      cases vs with
      | nil =>
        simp [jElems]
      | cons w ws =>
        have harith : (jChars w).length + (jElems ws).length < fuel := by
          have h1 := jChars_len_pos v
          simp only [jElems, List.length_cons, List.length_append] at hlen
          omega
        have hQ := ihQ w ws (v :: acc) rest harith
        simp only [jElems, List.cons_append, List.append_assoc] at hQ ⊢
        simp [hQ]
    · -- object members
      intro k v ms acc rest hlen
      have hlv : (jChars v).length < fuel := by
        have := jMembers_len_pos ms
        omega
      have hP := ihP v (jMembers ms ++ rest) hlv (headNotDigit_jMembers ms rest)
      have hps : parseStringBody
          (escapeList k.data ++ ('"' :: (':' :: (jChars v ++ (jMembers ms ++ rest))))) [] =
          some (k, ':' :: (jChars v ++ (jMembers ms ++ rest))) := by
        have := parseStringBody_escape k.data [] (':' :: (jChars v ++ (jMembers ms ++ rest)))
        simpa using this
      simp only [List.cons_append, List.append_assoc, List.nil_append]
      rw [parseF_members_cons]
      cases ms with
      | nil =>
        simp only [jMembers, List.singleton_append] at hps hP
        simp [jMembers, hps, hP]
      | cons m' ms' =>
        have harith : (escapeList m'.1.data).length + 3 + (jChars m'.2).length +
            (jMembers ms').length < fuel := by
          have h1 := jChars_len_pos v
          simp only [jMembers, List.length_cons, List.length_nil,
            List.length_append] at hlen
          omega
        have hR := ihR m'.1 m'.2 ms' ((k, v) :: acc) rest harith
        simp only [jMembers, List.cons_append, List.append_assoc,
          List.nil_append] at hps hP hR
        simp [jMembers, hps, hP, hR, List.cons_append, List.append_assoc]

theorem jsonParse_stringify (v : Json) : jsonParse (jsonStringify v) = some v := by
  have h := (parseF_complete ((jChars v).length + 1)).1 v [] (by omega) rfl
  rw [List.append_nil] at h
  rw [jsonStringify, jsonParse.eq_def]
  simp [h]

/-! ## The orders table

One row of the `orders` table (schema at `server.js` lines 27-31): `id` is
the AUTOINCREMENT primary key, `items_json` the serialized line items,
`special_requests` a nullable TEXT column, `status` a TEXT column,
`created_at` the insertion timestamp (modelled as a natural number) and
`archived` an INTEGER flag holding 0 or 1, modelled as a `Bool` with
`archivedInt` giving its stored integer value. -/

structure OrderRow where
  id : Nat
  table_no : String
  items_json : String
  special_requests : Option String
  status : String
  created_at : Nat
  archived : Bool
deriving Repr, DecidableEq

/-- The database: the `orders` table contents plus the next AUTOINCREMENT
id.  Rows are kept in insertion order. -/
structure Db where
  nextId : Nat
  orders : List OrderRow
deriving Repr, DecidableEq

/-- `SELECT * FROM orders WHERE id = ?` (first matching row; `id` is the
primary key). -/
def getOrderById (db : Db) (id : Nat) : Option OrderRow :=
  db.orders.find? (fun r => r.id == id)

/-- Row with the greatest `created_at` (ties keep the earlier row; the
claims only use states where the maximum is unique, since SQLite leaves the
order of equal sort keys unspecified). -/
def pickLatest : List OrderRow → Option OrderRow
  | [] => none
  | r :: rs =>
    match pickLatest rs with
    | none => some r
    | some b => if r.created_at ≥ b.created_at then some r else some b

/-- The WHERE clause `table_no = ? AND archived = 0`. -/
def isActiveFor (t : String) (r : OrderRow) : Bool :=
  r.table_no == t && !r.archived

/-- `SELECT * FROM orders WHERE table_no = ? AND archived = 0 ORDER BY
created_at DESC LIMIT 1` (`server.js` line 108). -/
def latestActiveOrder (db : Db) (t : String) : Option OrderRow :=
  pickLatest (db.orders.filter (isActiveFor t))

/-- `UPDATE orders SET ... WHERE id = ?`: rewrite every row whose id
matches. -/
def updateWhereId (db : Db) (id : Nat) (f : OrderRow → OrderRow) : Db :=
  { db with orders := db.orders.map (fun r => if r.id == id then f r else r) }

/-- Insertion step for sorting by `created_at` descending. -/
def insertDesc (r : OrderRow) : List OrderRow → List OrderRow
  | [] => [r]
  | x :: xs => if r.created_at ≥ x.created_at then r :: x :: xs else x :: insertDesc r xs

/-- `ORDER BY created_at DESC` (a stable determinization; SQLite leaves the
relative order of equal keys unspecified). -/
def sortByCreatedDesc : List OrderRow → List OrderRow
  | [] => []
  | r :: rs => insertDesc r (sortByCreatedDesc rs)

/-- `SELECT * FROM orders WHERE archived = 0 [AND status = ?] ORDER BY
created_at DESC` (`server.js` lines 87-88). -/
def selectActive (db : Db) (statusFilter : Option String) : List OrderRow :=
  sortByCreatedDesc (db.orders.filter (fun r =>
    !r.archived && match statusFilter with | some s => r.status == s | none => true))

/-! ## JavaScript-side helpers -/

/-- JavaScript truthiness of a possibly-absent string field (`undefined`,
`null` and the empty string are falsy). -/
def truthyStr : Option String → Bool
  | none => false
  | some s => !(s == "")

/-- JavaScript truthiness of a possibly-absent JSON body field. -/
def truthyJson : Option Json → Bool
  | none => false
  | some .null => false
  | some (.bool b) => b
  | some (.num n) => !(n == 0)
  | some (.str s) => !(s == "")
  | some (.arr _) => true
  | some (.obj _) => true

/-- `Array.isArray` on a possibly-absent body field. -/
def isArrayJ : Option Json → Bool
  | some (.arr _) => true
  | _ => false

/-- `items.length` (only consulted after `Array.isArray` has succeeded). -/
def itemsLen : Option Json → Nat
  | some (.arr l) => l.length
  | _ => 0

/-- The element list of an `items` field known to be an array. -/
def itemsArr : Option Json → List Json
  | some (.arr l) => l
  | _ => []

/-- The JavaScript expression `x || '[]'` applied to the `items_json`
column (the empty string and NULL are falsy and both yield `'[]'`). -/
def jsOrEmptyArr (s : String) : String := if s == "" then "[]" else s

/-- The JavaScript expression
`(special_requests ? ('; ' + special_requests) : '')` from line 112. -/
def reqSuffix : Option String → String
  | none => ""
  | some s => if s == "" then "" else "; " ++ s

/-- The five recognized status values (line 122). -/
def statusValues : List String := ["placed", "preparing", "ready", "billed", "archived"]

/-! ## SQLite semantics of line 123

The UPDATE issued by the status handler is

  `UPDATE orders SET status = ?,
     archived = (CASE WHEN ? = "archived" THEN 1 ELSE archived END) WHERE id = ?`

In SQLite a double-quoted token that can be resolved to a column name is an
identifier, and the expression is evaluated on the row being updated, where
a column named `archived` exists — so `"archived"` denotes the INTEGER
`archived` column, not the string literal `'archived'`.  The comparison of
the TEXT-bound parameter with that INTEGER value first applies numeric
affinity to the text; a text that is not a numeric literal stays TEXT, and
a TEXT value never compares equal to an INTEGER value.  `sqliteTextEqInt`
captures this: it is true only when the text is a numeric (integer) literal
whose value equals the integer. -/

/-- Whether a text would be converted to an integer by SQLite numeric
affinity (the fragment relevant here: optional sign and decimal digits;
none of the five status strings qualifies). -/
def isIntLiteral (s : String) : Bool :=
  match s.data with
  | [] => false
  | '-' :: ds => !ds.isEmpty && ds.all isDigitC
  | ds => ds.all isDigitC

/-- Integer value of a numeric text literal. -/
def intLitVal (s : String) : Int :=
  match s.data with
  | '-' :: ds => -(digitsToNat ds 0 : Int)
  | ds => (digitsToNat ds 0 : Int)

/-- SQLite evaluation of `? = "archived"` with a TEXT parameter `s` against
the INTEGER column value `n`. -/
def sqliteTextEqInt (s : String) (n : Int) : Bool :=
  if isIntLiteral s then intLitVal s == n else false

/-- Stored integer value of the `archived` column. -/
def archivedInt (b : Bool) : Int := if b then 1 else 0

/-! ## Handlers

Each handler is a pure function of the database (plus the request data and,
for create, the current timestamp).  It returns the new database, the trace
of externally visible actions in execution order — `write` when an SQL
INSERT/UPDATE commits, `emit` when `io.emit` fires — and the HTTP outcome.
`crash` models a thrown JavaScript `TypeError` (reading a property of
`undefined`, or `JSON.parse` on invalid text): the Express 4 handler's
promise rejects and no response is sent. -/

/-- The materialized order object sent in responses and socket events: the
row fields with an `items` property attached. -/
structure Order where
  id : Nat
  table_no : String
  items_json : String
  special_requests : Option String
  status : String
  created_at : Nat
  archived : Bool
  items : Json
deriving Repr

/-- Attach an `items` value to a row object. -/
def mkOrder (r : OrderRow) (items : Json) : Order :=
  { id := r.id, table_no := r.table_no, items_json := r.items_json,
    special_requests := r.special_requests, status := r.status,
    created_at := r.created_at, archived := r.archived, items := items }

/-- An externally visible step of a handler. -/
inductive Action where
  | write : Action
  | emit : String → Order → Action
deriving Repr

/-- HTTP outcome of a handler. -/
inductive HResult (α : Type) where
  | ok : α → HResult α
  | badRequest : String → HResult α
  | notFound : String → HResult α
  | crash : HResult α
deriving Repr

def isBadRequest {α : Type} : HResult α → Bool
  | .badRequest _ => true
  | _ => false

def isNotFound {α : Type} : HResult α → Bool
  | .notFound _ => true
  | _ => false

def isOk {α : Type} : HResult α → Bool
  | .ok _ => true
  | _ => false

def isCrash {α : Type} : HResult α → Bool
  | .crash => true
  | _ => false

/-- The SET clause of the add-items UPDATE (line 113): replace the items
and the special-requests text, force status back to `'placed'`. -/
def addItemsUpdateRow (newItems : List Json) (updatedRequests : String)
    (r : OrderRow) : OrderRow :=
  { r with items_json := jsonStringify (.arr newItems),
           special_requests := some updatedRequests, status := "placed" }

/-- The SET clause of the status UPDATE (line 123): store the new status;
the `archived` column is reassigned the CASE result, which by
`sqliteTextEqInt` keeps its old value for every non-numeric parameter. -/
def statusUpdateRow (s : String) (r : OrderRow) : OrderRow :=
  { r with status := s,
           archived := if sqliteTextEqInt s (archivedInt r.archived) then true
                       else r.archived }

/-- The SET clause of the bill UPDATE (line 132). -/
def billUpdateRow (r : OrderRow) : OrderRow :=
  { r with status := "billed", archived := true }

/-- `POST /api/orders` (`server.js` lines 93-102): validate
`!table_no || !items || !Array.isArray(items)`, INSERT the row (status
`'placed'`, `special_requests || ''`), SELECT it back, attach the original
`items` (line 99, not re-parsed from the store), emit `order:placed`,
respond `{ok, id}`. -/
def createOrderHandler (db : Db) (now : Nat) (table_no : Option String)
    (items : Option Json) (special_requests : Option String) :
    Db × List Action × HResult Nat :=
  if !truthyStr table_no || !truthyJson items || !isArrayJ items then
    (db, [], .badRequest "table_no and items[] required")
  else
    let its := itemsArr items
    let row : OrderRow :=
      { id := db.nextId, table_no := table_no.getD "",
        items_json := jsonStringify (.arr its),
        special_requests := some (special_requests.getD ""), status := "placed",
        created_at := now, archived := false }
    let db' : Db := { nextId := db.nextId + 1, orders := db.orders ++ [row] }
    match getOrderById db' row.id with
    | none => (db', [.write], .crash)
    | some r => (db', [.write, .emit "order:placed" (mkOrder r (.arr its))], .ok row.id)

/-- `POST /api/orders/:table_no/add-items` (`server.js` lines 104-118):
validate `!items || !Array.isArray(items) || items.length === 0`, find the
most recent active order of the table (404 when none), concatenate items,
append the special-requests suffix, force status back to `'placed'`,
UPDATE, SELECT back, emit `order:items-added`, respond with the updated
order.  A non-array stored `items_json` (impossible for rows written by
this API) would make `.concat` misbehave and is modelled as a crash. -/
def addItemsHandler (db : Db) (table_no : String) (items : Option Json)
    (special_requests : Option String) : Db × List Action × HResult Order :=
  if !truthyJson items || !isArrayJ items || itemsLen items == 0 then
    (db, [], .badRequest "items[] required")
  else
    match latestActiveOrder db table_no with
    | none => (db, [], .notFound "no active order for this table")
    | some existing =>
      match jsonParse (jsOrEmptyArr existing.items_json) with
      | none => (db, [], .crash)
      | some (.arr existingItems) =>
        let newItems := existingItems ++ itemsArr items
        let updatedRequests :=
          existing.special_requests.getD "" ++ reqSuffix special_requests
        let db' := updateWhereId db existing.id (addItemsUpdateRow newItems updatedRequests)
        match getOrderById db' existing.id with
        | none => (db', [.write], .crash)
        | some r2 =>
          match jsonParse (jsOrEmptyArr r2.items_json) with
          | none => (db', [.write], .crash)
          | some pj =>
            (db', [.write, .emit "order:items-added" (mkOrder r2 pj)],
              .ok (mkOrder r2 pj))
      | some _ => (db, [], .crash)

/-- `POST /api/orders/:id/status` (`server.js` lines 120-128): 400 unless
the status is one of the five values; then the UPDATE of line 123 (see
`sqliteTextEqInt` for the CASE expression), SELECT back — reading
`updated.items` crashes when no row exists — emit `order:status-changed`,
respond `{ok:true}`. -/
def setStatusHandler (db : Db) (id : Nat) (status : Option String) :
    Db × List Action × HResult Unit :=
  match status with
  | none => (db, [], .badRequest "invalid status")
  | some s =>
    if !(statusValues.contains s) then (db, [], .badRequest "invalid status")
    else
      let db' := updateWhereId db id (statusUpdateRow s)
      match getOrderById db' id with
      | none => (db', [.write], .crash)
      | some r2 =>
        match jsonParse (jsOrEmptyArr r2.items_json) with
        | none => (db', [.write], .crash)
        | some pj =>
          (db', [.write, .emit "order:status-changed" (mkOrder r2 pj)], .ok ())

/-- `POST /api/orders/:id/bill` (`server.js` lines 130-137):
`UPDATE orders SET status = 'billed', archived = 1 WHERE id = ?`
unconditionally, SELECT back (crash on a missing row), emit `order:billed`,
respond `{ok:true}`. -/
def billHandler (db : Db) (id : Nat) : Db × List Action × HResult Unit :=
  let db' := updateWhereId db id billUpdateRow
  match getOrderById db' id with
  | none => (db', [.write], .crash)
  | some r2 =>
    match jsonParse (jsOrEmptyArr r2.items_json) with
    | none => (db', [.write], .crash)
    | some pj => (db', [.write, .emit "order:billed" (mkOrder r2 pj)], .ok ())

/-- The row materialization of line 89: `rows.map` attaches
`items: JSON.parse(r.items_json || '[]')` to each row; rows are
materialized in order and the first parse failure throws and crashes the
request. -/
def materializeRows : List OrderRow → Option (List Order)
  | [] => some []
  | r :: rs =>
    match jsonParse (jsOrEmptyArr r.items_json) with
    | none => none
    | some j =>
      match materializeRows rs with
      | none => none
      | some os => some (mkOrder r j :: os)

/-- `GET /api/orders` (`server.js` lines 84-91): the active orders, newest
first, optionally filtered by status (`if (status)` — an empty or absent
query parameter means no filter), each with `items` parsed from
`items_json || '[]'`. -/
def listOrdersHandler (db : Db) (status : Option String) : HResult (List Order) :=
  match materializeRows (selectActive db (if truthyStr status then status else none)) with
  | some os => .ok os
  | none => .crash

/-! ## Store lemmas -/

theorem statusUpdateRow_id (s : String) (r : OrderRow) :
    (statusUpdateRow s r).id = r.id := rfl

theorem billUpdateRow_id (r : OrderRow) : (billUpdateRow r).id = r.id := rfl

theorem addItemsUpdateRow_id (ni : List Json) (ur : String) (r : OrderRow) :
    (addItemsUpdateRow ni ur r).id = r.id := rfl

theorem find?_map_update (id : Nat) (f : OrderRow → OrderRow)
    (hf : ∀ r, (f r).id = r.id) :
    ∀ l : List OrderRow,
      (l.map (fun r => if r.id == id then f r else r)).find? (fun r => r.id == id) =
        (l.find? (fun r => r.id == id)).map f := by
  intro l
  induction l with
  | nil => rfl
  | cons r rs ih =>
    by_cases h : r.id = id
    · have hb : (r.id == id) = true := by simp [h]
      have hb2 : ((f r).id == id) = true := by simp [hf r, h]
      simp only [List.map_cons, if_pos hb]
      rw [@List.find?_cons_of_pos _ (fun r => r.id == id) (f r) _ hb2,
        @List.find?_cons_of_pos _ (fun r => r.id == id) r _ hb]
      rfl
    · have hb : (r.id == id) = false := by simp [h]
      simp only [List.map_cons, if_neg (by simp [h] : ¬ (r.id == id) = true)]
      rw [@List.find?_cons_of_neg _ (fun r => r.id == id) r _ (by simp [h]),
        @List.find?_cons_of_neg _ (fun r => r.id == id) r _ (by simp [h])]
      exact ih

theorem getOrderById_update (db : Db) (id : Nat) (f : OrderRow → OrderRow)
    (hf : ∀ r, (f r).id = r.id) :
    getOrderById (updateWhereId db id f) id = (getOrderById db id).map f :=
  find?_map_update id f hf db.orders

theorem map_update_no_match (id : Nat) (f : OrderRow → OrderRow) :
    ∀ l : List OrderRow, (∀ r ∈ l, r.id ≠ id) →
      l.map (fun r => if r.id == id then f r else r) = l := by
  intro l
  induction l with
  | nil => intro _; rfl
  | cons r rs ih =>
    intro h
    have hb : ¬ (r.id == id) = true := by simp [h r (by simp)]
    simp only [List.map_cons, if_neg hb]
    rw [ih (fun r hr => h r (by simp [hr]))]

theorem updateWhereId_no_match (db : Db) (id : Nat) (f : OrderRow → OrderRow)
    (h : ∀ r ∈ db.orders, r.id ≠ id) : updateWhereId db id f = db := by
  have hm := map_update_no_match id f db.orders h
  unfold updateWhereId
  rw [hm]

theorem getOrderById_none (db : Db) (id : Nat)
    (h : ∀ r ∈ db.orders, r.id ≠ id) : getOrderById db id = none := by
  unfold getOrderById
  rw [List.find?_eq_none]
  intro r hr
  simp [h r hr]

theorem pickLatest_mem : ∀ (l : List OrderRow) (r : OrderRow),
    pickLatest l = some r → r ∈ l := by
  intro l
  induction l with
  | nil => intro r h; simp [pickLatest] at h
  | cons x xs ih =>
    intro r h
    rw [pickLatest] at h
    cases hp : pickLatest xs with
    | none => rw [hp] at h; simp at h; simp [h]
    | some b =>
      rw [hp] at h
      by_cases hc : x.created_at ≥ b.created_at
      · simp [hc] at h; simp [h]
      · simp [hc] at h
        have := ih b hp
        simp [← h, this]

theorem pickLatest_unique_max : ∀ (l : List OrderRow) (x : OrderRow), x ∈ l →
    (∀ y ∈ l, y ≠ x → y.created_at < x.created_at) → pickLatest l = some x := by
  intro l
  induction l with
  | nil => intro x hx _; simp at hx
  | cons r rs ih =>
    intro x hx hmax
    by_cases hxr : x = r
    · subst hxr
      cases hp : pickLatest rs with
      | none => simp [pickLatest, hp]
      | some b =>
        have hbmem := pickLatest_mem rs b hp
        by_cases hbx : b = x
        · subst hbx
          simp [pickLatest, hp]
        · have hlt : b.created_at < x.created_at :=
            hmax b (by simp [hbmem]) hbx
          simp [pickLatest, hp, le_of_lt hlt]
    · have hxrs : x ∈ rs := by
        rcases List.mem_cons.mp hx with h | h
        · exact absurd h hxr
        · exact h
      have hrx : r.created_at < x.created_at :=
        hmax r (by simp) (fun he => hxr he.symm)
      have hp := ih x hxrs (fun y hy hne => hmax y (by simp [hy]) hne)
      have hc : ¬ (x.created_at ≤ r.created_at) := not_le.mpr hrx
      simp [pickLatest, hp, ge_iff_le, hc]

theorem latestActiveOrder_none (db : Db) (t : String)
    (h : ∀ r ∈ db.orders, isActiveFor t r = false) :
    latestActiveOrder db t = none := by
  unfold latestActiveOrder
  have : db.orders.filter (isActiveFor t) = [] := by
    rw [List.filter_eq_nil_iff]
    intro r hr
    simp [h r hr]
  rw [this]
  rfl

theorem latestActiveOrder_unique_max (db : Db) (t : String) (x : OrderRow)
    (hx : x ∈ db.orders) (hact : isActiveFor t x = true)
    (hmax : ∀ y ∈ db.orders, isActiveFor t y = true → y ≠ x →
      y.created_at < x.created_at) :
    latestActiveOrder db t = some x := by
  unfold latestActiveOrder
  apply pickLatest_unique_max
  · exact List.mem_filter.mpr ⟨hx, hact⟩
  · intro y hy hne
    obtain ⟨hymem, hyact⟩ := List.mem_filter.mp hy
    exact hmax y hymem hyact hne

theorem mem_insertDesc (r a : OrderRow) :
    ∀ l : List OrderRow, (a ∈ insertDesc r l ↔ a = r ∨ a ∈ l) := by
  intro l
  induction l with
  | nil => simp [insertDesc]
  | cons x xs ih =>
    by_cases hc : r.created_at ≥ x.created_at
    · simp [insertDesc, hc]
    · simp [insertDesc, hc, ih]
      tauto

theorem mem_sortByCreatedDesc (a : OrderRow) :
    ∀ l : List OrderRow, (a ∈ sortByCreatedDesc l ↔ a ∈ l) := by
  intro l
  induction l with
  | nil => simp [sortByCreatedDesc]
  | cons x xs ih =>
    simp [sortByCreatedDesc, mem_insertDesc, ih]

theorem materializeRows_mem : ∀ (l : List OrderRow) (os : List Order),
    materializeRows l = some os → ∀ r ∈ l, ∀ j,
      jsonParse (jsOrEmptyArr r.items_json) = some j → mkOrder r j ∈ os := by
  intro l
  induction l with
  | nil => intro os _ r hr; simp at hr
  | cons x xs ih =>
    intro os hos r hr j hj
    rw [materializeRows] at hos
    cases hpx : jsonParse (jsOrEmptyArr x.items_json) with
    | none => rw [hpx] at hos; simp at hos
    | some jx =>
      rw [hpx] at hos
      cases hrest : materializeRows xs with
      | none => rw [hrest] at hos; simp at hos
      | some os' =>
        rw [hrest] at hos
        simp at hos
        rcases List.mem_cons.mp hr with he | hmem
        · subst he
          rw [hpx] at hj
          simp at hj
          subst hj
          simp [← hos]
        · have := ih os' hrest r hmem j hj
          simp [← hos, this]

theorem materializeRows_total : ∀ l : List OrderRow,
    (∀ r ∈ l, ∃ j, jsonParse (jsOrEmptyArr r.items_json) = some j) →
    ∃ os, materializeRows l = some os := by
  intro l
  induction l with
  | nil => intro _; exact ⟨[], rfl⟩
  | cons x xs ih =>
    intro h
    obtain ⟨jx, hjx⟩ := h x (by simp)
    obtain ⟨os', hos'⟩ := ih (fun r hr => h r (by simp [hr]))
    refine ⟨mkOrder x jx :: os', ?_⟩
    rw [materializeRows, hjx, hos']

theorem jsonStringify_ne_empty (v : Json) : jsonStringify v ≠ "" := by
  intro h
  have hd := congrArg String.data h
  have := jChars_len_pos v
  simp [jsonStringify] at hd
  rw [hd] at this
  simp at this

theorem jsOrEmptyArr_stringify (v : Json) :
    jsOrEmptyArr (jsonStringify v) = jsonStringify v := by
  unfold jsOrEmptyArr
  have : (jsonStringify v == "") = false := by
    simp [jsonStringify_ne_empty v]
  simp [this]

theorem jsonParse_stored (v : Json) :
    jsonParse (jsOrEmptyArr (jsonStringify v)) = some v := by
  rw [jsOrEmptyArr_stringify, jsonParse_stringify]

/-! ## Handler-store helpers -/

/-- None of the five status values is a numeric literal, so the CASE
expression of line 123 never produces 1. -/
theorem statusValues_not_numeric : ∀ s ∈ statusValues, isIntLiteral s = false := by
  decide

theorem statusUpdateRow_archived (s : String) (hs : s ∈ statusValues) (r : OrderRow) :
    (statusUpdateRow s r).archived = r.archived := by
  have h := statusValues_not_numeric s hs
  simp [statusUpdateRow, sqliteTextEqInt, h]

/-- For a valid status the post-state of the status handler is exactly the
UPDATE of line 123, whatever happens afterwards. -/
theorem setStatus_valid_store (db : Db) (id : Nat) (s : String)
    (hc : statusValues.contains s = true) :
    (setStatusHandler db id (some s)).1 = updateWhereId db id (statusUpdateRow s) := by
  simp only [setStatusHandler, hc, Bool.not_true, Bool.false_eq_true, if_false]
  cases hg : getOrderById (updateWhereId db id (statusUpdateRow s)) id with
  | none => simp [hg]
  | some r2 =>
    cases hj : jsonParse (jsOrEmptyArr r2.items_json) with
    | none => simp [hg, hj]
    | some pj => simp [hg, hj]

/-- The post-state of the bill handler is exactly the UPDATE of line 132. -/
theorem bill_store (db : Db) (id : Nat) :
    (billHandler db id).1 = updateWhereId db id billUpdateRow := by
  unfold billHandler
  cases hg : getOrderById (updateWhereId db id billUpdateRow) id with
  | none => simp [hg]
  | some r2 =>
    cases hj : jsonParse (jsOrEmptyArr r2.items_json) with
    | none => simp [hg, hj]
    | some pj => simp [hg, hj]

/-- Unfolding of the add-items handler once validation has passed and the
target row with parseable items is known. -/
theorem addItems_valid_eq (db : Db) (t : String) (its : List Json) (sr : Option String)
    (existing : OrderRow) (eItems : List Json)
    (hne : its ≠ [])
    (hlat : latestActiveOrder db t = some existing)
    (hparse : jsonParse (jsOrEmptyArr existing.items_json) = some (.arr eItems)) :
    addItemsHandler db t (some (.arr its)) sr =
      (match getOrderById (updateWhereId db existing.id
          (addItemsUpdateRow (eItems ++ its)
            (existing.special_requests.getD "" ++ reqSuffix sr))) existing.id with
       | none =>
         (updateWhereId db existing.id
            (addItemsUpdateRow (eItems ++ its)
              (existing.special_requests.getD "" ++ reqSuffix sr)), [.write], .crash)
       | some r2 =>
         match jsonParse (jsOrEmptyArr r2.items_json) with
         | none =>
           (updateWhereId db existing.id
              (addItemsUpdateRow (eItems ++ its)
                (existing.special_requests.getD "" ++ reqSuffix sr)), [.write], .crash)
         | some pj =>
           (updateWhereId db existing.id
              (addItemsUpdateRow (eItems ++ its)
                (existing.special_requests.getD "" ++ reqSuffix sr)),
             [.write, .emit "order:items-added" (mkOrder r2 pj)],
             .ok (mkOrder r2 pj))) := by
  have hval : (!truthyJson (some (.arr its)) || !isArrayJ (some (.arr its)) ||
      (itemsLen (some (.arr its)) == 0)) = false := by
    simp [truthyJson, isArrayJ, itemsLen, hne]
  simp only [addItemsHandler, hval, Bool.false_eq_true, if_false, hlat, hparse, itemsArr]

/-- The add-items handler on a well-addressed target: full input-output
characterization. -/
theorem addItems_found_eq (db : Db) (t : String) (its : List Json) (sr : Option String)
    (existing : OrderRow) (eItems : List Json)
    (hne : its ≠ [])
    (hlat : latestActiveOrder db t = some existing)
    (hparse : jsonParse (jsOrEmptyArr existing.items_json) = some (.arr eItems))
    (hfind : getOrderById db existing.id = some existing) :
    addItemsHandler db t (some (.arr its)) sr =
      (updateWhereId db existing.id
        (addItemsUpdateRow (eItems ++ its)
          (existing.special_requests.getD "" ++ reqSuffix sr)),
       [.write, .emit "order:items-added"
         (mkOrder (addItemsUpdateRow (eItems ++ its)
           (existing.special_requests.getD "" ++ reqSuffix sr) existing)
           (.arr (eItems ++ its)))],
       .ok (mkOrder (addItemsUpdateRow (eItems ++ its)
         (existing.special_requests.getD "" ++ reqSuffix sr) existing)
         (.arr (eItems ++ its)))) := by
  rw [addItems_valid_eq db t its sr existing eItems hne hlat hparse]
  have hg2 : getOrderById (updateWhereId db existing.id
      (addItemsUpdateRow (eItems ++ its)
        (existing.special_requests.getD "" ++ reqSuffix sr))) existing.id =
      some (addItemsUpdateRow (eItems ++ its)
        (existing.special_requests.getD "" ++ reqSuffix sr) existing) := by
    rw [getOrderById_update db existing.id _ (addItemsUpdateRow_id _ _), hfind]
    rfl
  have hp2 : jsonParse (jsOrEmptyArr (addItemsUpdateRow (eItems ++ its)
      (existing.special_requests.getD "" ++ reqSuffix sr) existing).items_json) =
      some (.arr (eItems ++ its)) := by
    have : (addItemsUpdateRow (eItems ++ its)
        (existing.special_requests.getD "" ++ reqSuffix sr) existing).items_json =
        jsonStringify (.arr (eItems ++ its)) := rfl
    rw [this, jsOrEmptyArr_stringify, jsonParse_stringify]
  rw [hg2]
  simp [hp2]

/-! ## Claims -/

/-- C1: the claim states that `setStatus(id, status)` sets `archived = true`
exactly when `status = "archived"`.  The code disagrees: in the UPDATE of
line 123 the double-quoted `"archived"` is resolved by SQLite to the
`archived` column, so the CASE comparison (TEXT against INTEGER) is always
false and the archived flag is left unchanged for every status.  The first
conjunct evaluates the handler at the failing input — an existing
non-archived order receiving status `"archived"` ends with
`status = "archived"` but `archived` still false; the second conjunct is
the general fact that the status endpoint never changes any row's archived
flag. -/
theorem C1_setStatus_archived_not_set :
    ((getOrderById (setStatusHandler
        ⟨2, [⟨1, "T1", "[]", some "", "placed", 1, false⟩]⟩ 1 (some "archived")).1 1).map
      (fun r => (r.status, r.archived)) = some ("archived", false)) ∧
    ∀ (db : Db) (id : Nat) (st : Option String),
      ((setStatusHandler db id st).1).orders.map (fun r => r.archived) =
        db.orders.map (fun r => r.archived) := by
  constructor
  · decide
  · intro db id st
    cases st with
    | none => rfl
    | some s =>
      by_cases hc : statusValues.contains s = true
      · rw [setStatus_valid_store db id s hc]
        have hmem : s ∈ statusValues := by simpa using hc
        unfold updateWhereId
        simp only [List.map_map]
        apply List.map_congr_left
        intro r _
        by_cases hid : (r.id == id) = true
        · simp [Function.comp, hid, statusUpdateRow_archived s hmem r]
        · simp [Function.comp, hid]
      · have hnmem : s ∉ statusValues := by simpa using hc
        have hfst : (setStatusHandler db id (some s)).1 = db := by
          simp [setStatusHandler, hnmem]
        rw [hfst]

/-- C2 counterexample: the claim states that `setStatus` and `bill` fail
with `NotFoundError` (404) when no order has the given id.  On the empty
store neither handler produces a not-found result (each crashes instead),
so the claim is false as stated. -/
theorem C2_counterexample_no_404 :
    isNotFound (setStatusHandler (⟨1, []⟩ : Db) 1 (some "billed")).2.2 = false ∧
    isNotFound (billHandler (⟨1, []⟩ : Db) 1).2.2 = false := by
  decide

/-- C2 (amended): for an id with no order, `setStatus` with a valid status
and `bill` do not fail with `NotFoundError`: the UPDATE silently affects
zero rows (the store is unchanged), the follow-up SELECT finds no row, and
each handler then crashes with a type error reading `updated.items` of
`undefined`, sending no response. -/
theorem C2_missing_id_crashes (db : Db) (id : Nat) (s : String)
    (hs : statusValues.contains s = true)
    (hid : ∀ r ∈ db.orders, r.id ≠ id) :
    (setStatusHandler db id (some s)).2.2 = .crash ∧
    (setStatusHandler db id (some s)).1 = db ∧
    (billHandler db id).2.2 = .crash ∧
    (billHandler db id).1 = db := by
  have hupS : updateWhereId db id (statusUpdateRow s) = db :=
    updateWhereId_no_match db id _ hid
  have hupB : updateWhereId db id billUpdateRow = db :=
    updateWhereId_no_match db id _ hid
  have hg : getOrderById db id = none := getOrderById_none db id hid
  refine ⟨?_, ?_, ?_, ?_⟩
  · simp only [setStatusHandler, hs, Bool.not_true, Bool.false_eq_true, if_false]
    simp [hupS, hg]
  · rw [setStatus_valid_store db id s hs, hupS]
  · unfold billHandler
    simp [hupB, hg]
  · rw [bill_store db id, hupB]

/-- C2 witness: the amended behavior at a concrete input (empty store,
id 1, status `"billed"`). -/
theorem C2_missing_id_crashes_witness :
    (setStatusHandler (⟨1, []⟩ : Db) 1 (some "billed")).2.2 = .crash ∧
    (setStatusHandler (⟨1, []⟩ : Db) 1 (some "billed")).1 =
      (⟨1, []⟩ : Db) ∧
    (billHandler (⟨1, []⟩ : Db) 1).2.2 = .crash ∧
    (billHandler (⟨1, []⟩ : Db) 1).1 = (⟨1, []⟩ : Db) :=
  C2_missing_id_crashes (⟨1, []⟩ : Db) 1 "billed" (by decide) (by simp)

/-- C3: for an existing, initially non-archived order, `bill(id)` sets
`status = "billed"` and `archived = true`, while `setStatus(id, "billed")`
sets the status but leaves `archived` unchanged (false); the archived flag
therefore differs between the two code paths. -/
theorem C3_bill_archives_setStatus_does_not (db : Db) (id : Nat) (r : OrderRow)
    (hget : getOrderById db id = some r) (harch : r.archived = false) :
    ((getOrderById (billHandler db id).1 id).map (fun x => (x.status, x.archived)) =
      some ("billed", true)) ∧
    ((getOrderById (setStatusHandler db id (some "billed")).1 id).map
      (fun x => (x.status, x.archived)) = some ("billed", false)) ∧
    (getOrderById (billHandler db id).1 id).map (fun x => x.archived) ≠
      (getOrderById (setStatusHandler db id (some "billed")).1 id).map
        (fun x => x.archived) := by
  have hnum : isIntLiteral "billed" = false := by decide
  rw [bill_store db id, setStatus_valid_store db id "billed" (by decide),
    getOrderById_update db id _ billUpdateRow_id,
    getOrderById_update db id _ (statusUpdateRow_id "billed"), hget]
  refine ⟨?_, ?_, ?_⟩
  · simp [billUpdateRow]
  · simp [statusUpdateRow, sqliteTextEqInt, hnum, harch]
  · simp [billUpdateRow, statusUpdateRow, sqliteTextEqInt, hnum, harch]

/-- C3 witness: the two code paths at a concrete one-order store. -/
theorem C3_bill_archives_setStatus_does_not_witness :
    ((getOrderById (billHandler
        ⟨2, [⟨1, "T1", "[]", some "", "ready", 1, false⟩]⟩ 1).1 1).map (fun x => (x.status, x.archived)) =
      some ("billed", true)) ∧
    ((getOrderById (setStatusHandler
        ⟨2, [⟨1, "T1", "[]", some "", "ready", 1, false⟩]⟩ 1 (some "billed")).1 1).map
      (fun x => (x.status, x.archived)) = some ("billed", false)) ∧
    (getOrderById (billHandler
        ⟨2, [⟨1, "T1", "[]", some "", "ready", 1, false⟩]⟩ 1).1 1).map (fun x => x.archived) ≠
      (getOrderById (setStatusHandler
        ⟨2, [⟨1, "T1", "[]", some "", "ready", 1, false⟩]⟩ 1 (some "billed")).1 1).map
        (fun x => x.archived) :=
  C3_bill_archives_setStatus_does_not
    ⟨2, [⟨1, "T1", "[]", some "", "ready", 1, false⟩]⟩ 1
    ⟨1, "T1", "[]", some "", "ready", 1, false⟩ (by decide) rfl

/-- A freshly appended row is always found by its id (there may be an
earlier row with the same id in a corrupt store, but some row is found). -/
theorem getOrderById_append_self (n : Nat) (l : List OrderRow) (row : OrderRow) :
    ∃ r, getOrderById ⟨n, l ++ [row]⟩ row.id = some r := by
  show ∃ r, (l ++ [row]).find? (fun r => r.id == row.id) = some r
  induction l with
  | nil =>
    refine ⟨row, ?_⟩
    rw [List.nil_append]
    exact @List.find?_cons_of_pos _ (fun r => r.id == row.id) row [] (by simp)
  | cons x xs ih =>
    rw [List.cons_append]
    by_cases h : (x.id == row.id) = true
    · exact ⟨x, @List.find?_cons_of_pos _ (fun r => r.id == row.id) x _ h⟩
    · obtain ⟨r, hr⟩ := ih
      refine ⟨r, ?_⟩
      rw [@List.find?_cons_of_neg _ (fun r => r.id == row.id) x _ h]
      exact hr

/-- With fresh ids (as AUTOINCREMENT guarantees) the appended row itself is
found. -/
theorem getOrderById_append_fresh (n : Nat) (l : List OrderRow) (row : OrderRow)
    (hf : ∀ r ∈ l, r.id ≠ row.id) :
    getOrderById ⟨n, l ++ [row]⟩ row.id = some row := by
  show (l ++ [row]).find? (fun r => r.id == row.id) = some row
  induction l with
  | nil =>
    rw [List.nil_append]
    exact @List.find?_cons_of_pos _ (fun r => r.id == row.id) row [] (by simp)
  | cons x xs ih =>
    have hx : ¬ (x.id == row.id) = true := by simp [hf x (by simp)]
    rw [List.cons_append, @List.find?_cons_of_neg _ (fun r => r.id == row.id) x _ hx]
    exact ih (fun r hr => hf r (by simp [hr]))

/-- The create validation test, characterized: it trips exactly when the
table number is missing or empty, or the items field is not an array. -/
theorem create_cond_iff (table_no : Option String) (items : Option Json) :
    ((!truthyStr table_no || !truthyJson items || !isArrayJ items) = true ↔
      (table_no = none ∨ table_no = some "" ∨ isArrayJ items = false)) := by
  cases table_no with
  | none => simp [truthyStr]
  | some t =>
    by_cases ht : t = ""
    · subst ht; simp [truthyStr]
    · cases items with
      | none => simp [truthyStr, truthyJson, isArrayJ, ht]
      | some j => cases j <;> simp [truthyStr, truthyJson, isArrayJ, ht]

/-- Post-state of a valid create call: the row is appended with the next
id, the serialized items, `special_requests || ''` and status placed. -/
theorem create_valid_fst (db : Db) (now : Nat) (t : String) (its : List Json)
    (sr : Option String) (hts : t ≠ "") :
    (createOrderHandler db now (some t) (some (.arr its)) sr).1 =
      ⟨db.nextId + 1, db.orders ++
        [⟨db.nextId, t, jsonStringify (.arr its), some (sr.getD ""), "placed", now,
          false⟩]⟩ := by
  have hval : (!truthyStr (some t) || !truthyJson (some (.arr its)) ||
      !isArrayJ (some (.arr its))) = false := by
    simp [truthyStr, truthyJson, isArrayJ, hts]
  simp only [createOrderHandler, hval, Bool.false_eq_true, if_false, itemsArr,
    Option.getD_some]
  obtain ⟨r, hr⟩ := getOrderById_append_self (db.nextId + 1) db.orders
    ⟨db.nextId, t, jsonStringify (.arr its), some (sr.getD ""), "placed", now, false⟩
  rw [hr]

/-- Response of a valid create call: `ok` with the assigned id. -/
theorem create_valid_result (db : Db) (now : Nat) (t : String) (its : List Json)
    (sr : Option String) (hts : t ≠ "") :
    (createOrderHandler db now (some t) (some (.arr its)) sr).2.2 = .ok db.nextId := by
  have hval : (!truthyStr (some t) || !truthyJson (some (.arr its)) ||
      !isArrayJ (some (.arr its))) = false := by
    simp [truthyStr, truthyJson, isArrayJ, hts]
  simp only [createOrderHandler, hval, Bool.false_eq_true, if_false, itemsArr,
    Option.getD_some]
  obtain ⟨r, hr⟩ := getOrderById_append_self (db.nextId + 1) db.orders
    ⟨db.nextId, t, jsonStringify (.arr its), some (sr.getD ""), "placed", now, false⟩
  rw [hr]

/-- C4: a successful add-items call concatenates the new items after the
targeted order's existing items (order-preserving), appends the
special-requests text separated by `"; "` only when the new text is
non-empty (`reqSuffix`), and forces the status back to `"placed"`; the
store receives exactly that update. -/
theorem C4_appendItems_behavior (db : Db) (t : String) (its : List Json)
    (sr : Option String) (existing : OrderRow) (eItems : List Json)
    (hne : its ≠ [])
    (hlat : latestActiveOrder db t = some existing)
    (hparse : jsonParse (jsOrEmptyArr existing.items_json) = some (.arr eItems))
    (hfind : getOrderById db existing.id = some existing) :
    ∃ ord : Order,
      (addItemsHandler db t (some (.arr its)) sr).2.2 = .ok ord ∧
      ord.items = .arr (eItems ++ its) ∧
      ord.status = "placed" ∧
      ord.special_requests = some (existing.special_requests.getD "" ++ reqSuffix sr) ∧
      (addItemsHandler db t (some (.arr its)) sr).1 =
        updateWhereId db existing.id
          (addItemsUpdateRow (eItems ++ its)
            (existing.special_requests.getD "" ++ reqSuffix sr)) := by
  rw [addItems_found_eq db t its sr existing eItems hne hlat hparse hfind]
  exact ⟨_, rfl, rfl, rfl, rfl, rfl⟩

/-- C4 witness: the spec's concrete scenario — create an order on table
`"T9"` with one item and `"no onions"`, then add one item with
`"extra spicy"`; the result has both items in order and
`special_requests = "no onions; extra spicy"`. -/
theorem C4_appendItems_behavior_witness :
    ∃ ord : Order,
      (addItemsHandler
        (createOrderHandler ⟨1, []⟩ 5 (some "T9")
          (some (.arr [.obj [("sku", .str "A")]])) (some "no onions")).1
        "T9" (some (.arr [.obj [("sku", .str "B")]])) (some "extra spicy")).2.2 =
        .ok ord ∧
      ord.items = .arr [.obj [("sku", .str "A")], .obj [("sku", .str "B")]] ∧
      ord.status = "placed" ∧
      ord.special_requests = some "no onions; extra spicy" := by
  obtain ⟨ord, hok, hitems, hstatus, hreq, hstore⟩ :=
    C4_appendItems_behavior
      (createOrderHandler ⟨1, []⟩ 5 (some "T9")
        (some (.arr [.obj [("sku", .str "A")]])) (some "no onions")).1
      "T9" [.obj [("sku", .str "B")]] (some "extra spicy")
      ⟨1, "T9", jsonStringify (.arr [.obj [("sku", .str "A")]]), some "no onions",
        "placed", 5, false⟩
      [.obj [("sku", .str "A")]]
      (by simp) (by rfl) (jsonParse_stored (.arr [.obj [("sku", .str "A")]])) (by rfl)
  refine ⟨ord, hok, ?_, hstatus, ?_⟩
  · rw [hitems]
    rfl
  · rw [hreq]
    rfl

/-- C5: after billing the only order of a table (all of the table's rows
have that id), a subsequent add-items call for the table fails with 404:
the billed order is archived and no longer counts as active. -/
theorem C5_append_after_bill_not_found (db : Db) (id : Nat) (t : String)
    (its : List Json) (sr : Option String) (hne : its ≠ [])
    (honly : ∀ r ∈ db.orders, r.table_no = t → r.id = id) :
    (addItemsHandler (billHandler db id).1 t (some (.arr its)) sr).2.2 =
      .notFound "no active order for this table" := by
  rw [bill_store db id]
  have hact : ∀ r ∈ (updateWhereId db id billUpdateRow).orders,
      isActiveFor t r = false := by
    intro r hr
    simp only [updateWhereId] at hr
    obtain ⟨r0, hr0, hre⟩ := List.mem_map.mp hr
    by_cases h : (r0.id == id) = true
    · rw [if_pos h] at hre
      subst hre
      simp [isActiveFor, billUpdateRow]
    · rw [if_neg h] at hre
      subst hre
      have hnt : r0.table_no ≠ t := by
        intro he
        exact h (by simp [honly r0 hr0 he])
      simp [isActiveFor, hnt]
  have hlat := latestActiveOrder_none _ t hact
  have hval : (!truthyJson (some (.arr its)) || !isArrayJ (some (.arr its)) ||
      (itemsLen (some (.arr its)) == 0)) = false := by
    simp [truthyJson, isArrayJ, itemsLen, hne]
  simp [addItemsHandler, hval, hlat]

/-- C5 witness: one order on table `"T1"`, billed, then add-items fails
with the 404 message. -/
theorem C5_append_after_bill_not_found_witness :
    (addItemsHandler
      (billHandler ⟨2, [⟨1, "T1", "[]", some "", "placed", 1, false⟩]⟩ 1).1
      "T1" (some (.arr [.null])) none).2.2 =
      .notFound "no active order for this table" :=
  C5_append_after_bill_not_found
    ⟨2, [⟨1, "T1", "[]", some "", "placed", 1, false⟩]⟩ 1 "T1" [.null] none
    (by simp) (by decide)

/-- C7: with two active orders on the same table, the add-items handler
updates only the most recently created one (`o2`): the post store is
exactly the UPDATE addressed at `o2.id`, every row with a different id is
unchanged at its position, and the older active order `o1` is still present
untouched. -/
theorem C7_append_targets_latest_only (db : Db) (t : String) (its : List Json)
    (sr : Option String) (o1 o2 : OrderRow) (eItems : List Json)
    (hne : its ≠ [])
    (h1 : o1 ∈ db.orders) (h2 : o2 ∈ db.orders)
    (ht1 : o1.table_no = t) (ht2 : o2.table_no = t)
    (ha1 : o1.archived = false) (ha2 : o2.archived = false)
    (hmax : ∀ y ∈ db.orders, isActiveFor t y = true → y ≠ o2 →
      y.created_at < o2.created_at)
    (hid12 : o1.id ≠ o2.id)
    (hparse : jsonParse (jsOrEmptyArr o2.items_json) = some (.arr eItems)) :
    (addItemsHandler db t (some (.arr its)) sr).1 =
      updateWhereId db o2.id
        (addItemsUpdateRow (eItems ++ its)
          (o2.special_requests.getD "" ++ reqSuffix sr)) ∧
    ((addItemsHandler db t (some (.arr its)) sr).1).orders.length =
      db.orders.length ∧
    (∀ i (hi : i < db.orders.length)
        (hi2 : i < ((addItemsHandler db t (some (.arr its)) sr).1).orders.length),
      (db.orders.get ⟨i, hi⟩).id ≠ o2.id →
        ((addItemsHandler db t (some (.arr its)) sr).1).orders.get ⟨i, hi2⟩ =
          db.orders.get ⟨i, hi⟩) ∧
    o1 ∈ ((addItemsHandler db t (some (.arr its)) sr).1).orders := by
  have hact2 : isActiveFor t o2 = true := by simp [isActiveFor, ht2, ha2]
  have hlat : latestActiveOrder db t = some o2 :=
    latestActiveOrder_unique_max db t o2 h2 hact2 hmax
  have hfst : (addItemsHandler db t (some (.arr its)) sr).1 =
      updateWhereId db o2.id
        (addItemsUpdateRow (eItems ++ its)
          (o2.special_requests.getD "" ++ reqSuffix sr)) := by
    rw [addItems_valid_eq db t its sr o2 eItems hne hlat hparse]
    cases hg : getOrderById (updateWhereId db o2.id
        (addItemsUpdateRow (eItems ++ its)
          (o2.special_requests.getD "" ++ reqSuffix sr))) o2.id with
    | none => simp [hg]
    | some r2 =>
      cases hj : jsonParse (jsOrEmptyArr r2.items_json) with
      | none => simp [hg, hj]
      | some pj => simp [hg, hj]
  rw [hfst]
  refine ⟨rfl, by simp [updateWhereId], ?_, ?_⟩
  · intro i hi hi2 hid
    simp only [List.get_eq_getElem] at hid ⊢
    simp only [updateWhereId, List.getElem_map]
    rw [if_neg (by simp [hid])]
  · simp only [updateWhereId]
    refine List.mem_map.mpr ⟨o1, h1, ?_⟩
    rw [if_neg (by simp [hid12])]

/-- C7 witness: two active orders on table `"T5"` (ids 1 and 2, the second
created later); append targets id 2 and the first row is untouched. -/
theorem C7_append_targets_latest_only_witness :
    (addItemsHandler
        ⟨3, [⟨1, "T5", "[]", some "", "placed", 1, false⟩,
             ⟨2, "T5", "[]", some "", "placed", 2, false⟩]⟩
        "T5" (some (.arr [.null])) none).1 =
      updateWhereId
        ⟨3, [⟨1, "T5", "[]", some "", "placed", 1, false⟩,
             ⟨2, "T5", "[]", some "", "placed", 2, false⟩]⟩ 2
        (addItemsUpdateRow ([] ++ [.null])
          ((some "").getD "" ++ reqSuffix none)) ∧
    ⟨1, "T5", "[]", some "", "placed", 1, false⟩ ∈
      ((addItemsHandler
        ⟨3, [⟨1, "T5", "[]", some "", "placed", 1, false⟩,
             ⟨2, "T5", "[]", some "", "placed", 2, false⟩]⟩
        "T5" (some (.arr [.null])) none).1).orders := by
  obtain ⟨ha, hb, hc, hd⟩ :=
    C7_append_targets_latest_only
      ⟨3, [⟨1, "T5", "[]", some "", "placed", 1, false⟩,
           ⟨2, "T5", "[]", some "", "placed", 2, false⟩]⟩
      "T5" [.null] none
      ⟨1, "T5", "[]", some "", "placed", 1, false⟩
      ⟨2, "T5", "[]", some "", "placed", 2, false⟩ []
      (by simp) (by simp) (by simp) rfl rfl rfl rfl
      (by decide) (by decide) (by rfl)
  exact ⟨ha, hd⟩

/-- C6: create fails with 400 exactly when the table number is missing or
empty or the items field is not an array (any array length is accepted);
in particular `create("T1", [], "")` succeeds with the assigned id, stores
the row with a serialized empty array, and that serialization reads back as
the empty items sequence. -/
theorem C6_create_validation (db : Db) (now : Nat) (table_no : Option String)
    (items : Option Json) (sr : Option String) :
    (isBadRequest (createOrderHandler db now table_no items sr).2.2 = true ↔
      (table_no = none ∨ table_no = some "" ∨ isArrayJ items = false)) ∧
    ((createOrderHandler db now (some "T1") (some (.arr [])) (some "")).2.2 =
      .ok db.nextId) ∧
    ((createOrderHandler db now (some "T1") (some (.arr [])) (some "")).1).orders =
      db.orders ++
        [⟨db.nextId, "T1", jsonStringify (.arr []), some "", "placed", now, false⟩] ∧
    jsonParse (jsOrEmptyArr (jsonStringify (.arr []))) = some (.arr []) := by
  refine ⟨?_, ?_, ?_, jsonParse_stored (.arr [])⟩
  · by_cases hcond : (!truthyStr table_no || !truthyJson items ||
        !isArrayJ items) = true
    · have hbad : (createOrderHandler db now table_no items sr).2.2 =
          .badRequest "table_no and items[] required" := by
        simp [createOrderHandler, hcond]
      rw [hbad]
      simp only [isBadRequest]
      exact ⟨fun _ => (create_cond_iff table_no items).mp hcond, fun _ => trivial⟩
    · have hcf : (!truthyStr table_no || !truthyJson items ||
          !isArrayJ items) = false := by simpa using hcond
      have hnb : isBadRequest (createOrderHandler db now table_no items sr).2.2 =
          false := by
        simp only [createOrderHandler, hcf, Bool.false_eq_true, if_false]
        split <;> rfl
      rw [hnb]
      constructor
      · intro h; exact absurd h (by simp)
      · intro h
        exact absurd ((create_cond_iff table_no items).mpr h) (by simp [hcf])
  · have h := create_valid_result db now "T1" [] (some "") (by decide)
    simpa using h
  · have h := create_valid_fst db now "T1" [] (some "") (by decide)
    rw [h]
    simp

/-- C8: an order written via create and read back via the active-orders
listing has an `items` sequence deep-equal to the original input — the
write-then-read round trip through `JSON.stringify`/`JSON.parse` is the
identity.  (The hypothesis that the pre-existing rows parse rules out a
crash of the listing on unrelated corrupt rows.) -/
theorem C8_create_listActive_roundtrip (db : Db) (now : Nat) (t : String)
    (its : List Json) (sr : Option String) (hts : t ≠ "")
    (hparseall : ∀ r ∈ db.orders, ∃ j, jsonParse (jsOrEmptyArr r.items_json) = some j) :
    ∃ os, listOrdersHandler
        (createOrderHandler db now (some t) (some (.arr its)) sr).1 none = .ok os ∧
      ∃ o ∈ os, o.id = db.nextId ∧ o.items = .arr its := by
  rw [create_valid_fst db now t its sr hts]
  have hall : ∀ r ∈ selectActive
      ⟨db.nextId + 1, db.orders ++
        [⟨db.nextId, t, jsonStringify (.arr its), some (sr.getD ""), "placed", now,
          false⟩]⟩ none,
      ∃ j, jsonParse (jsOrEmptyArr r.items_json) = some j := by
    intro r hr
    have hmem : r ∈ db.orders ++
        [⟨db.nextId, t, jsonStringify (.arr its), some (sr.getD ""), "placed", now,
          false⟩] := by
      have h1 := (mem_sortByCreatedDesc r _).mp hr
      exact (List.mem_filter.mp h1).1
    rcases List.mem_append.mp hmem with h | h
    · exact hparseall r h
    · simp only [List.mem_singleton] at h
      subst h
      exact ⟨.arr its, jsonParse_stored (.arr its)⟩
  obtain ⟨os, hos⟩ := materializeRows_total _ hall
  refine ⟨os, ?_, ?_⟩
  · simp only [listOrdersHandler, truthyStr, Bool.false_eq_true, if_false]
    rw [hos]
  · have hrowmem : (⟨db.nextId, t, jsonStringify (.arr its), some (sr.getD ""),
        "placed", now, false⟩ : OrderRow) ∈ selectActive
        ⟨db.nextId + 1, db.orders ++
          [⟨db.nextId, t, jsonStringify (.arr its), some (sr.getD ""), "placed", now,
            false⟩]⟩ none := by
      unfold selectActive
      rw [mem_sortByCreatedDesc]
      exact List.mem_filter.mpr ⟨by simp, by simp⟩
    have hin := materializeRows_mem _ os hos _ hrowmem (.arr its)
      (jsonParse_stored (.arr its))
    exact ⟨_, hin, rfl, rfl⟩

/-- C8 witness: create on the empty store, then list; the single active
order carries exactly the original items. -/
theorem C8_create_listActive_roundtrip_witness :
    ∃ os, listOrdersHandler
        (createOrderHandler ⟨1, []⟩ 0 (some "T1")
          (some (.arr [.obj [("sku", .str "A")], .num 3])) none).1 none = .ok os ∧
      ∃ o ∈ os, o.id = 1 ∧ o.items = .arr [.obj [("sku", .str "A")], .num 3] :=
  C8_create_listActive_roundtrip ⟨1, []⟩ 0 "T1"
    [.obj [("sku", .str "A")], .num 3] none (by decide) (by simp)

/-- C10: when the targeted order's existing `special_requests` is empty
(NULL or the empty string) and the new text is non-empty, the stored result
is the separator followed by the new text — `"; "` is prepended even though
nothing precedes it. -/
theorem C10_separator_with_empty_existing (db : Db) (t : String) (its : List Json)
    (s : String) (existing : OrderRow) (eItems : List Json)
    (hne : its ≠ []) (hs : s ≠ "")
    (hempty : existing.special_requests = none ∨ existing.special_requests = some "")
    (hlat : latestActiveOrder db t = some existing)
    (hparse : jsonParse (jsOrEmptyArr existing.items_json) = some (.arr eItems))
    (hfind : getOrderById db existing.id = some existing) :
    ∃ r2, getOrderById (addItemsHandler db t (some (.arr its)) (some s)).1
        existing.id = some r2 ∧
      r2.special_requests = some ("; " ++ s) := by
  rw [addItems_found_eq db t its (some s) existing eItems hne hlat hparse hfind]
  have hgd : existing.special_requests.getD "" = "" := by
    rcases hempty with h | h <;> simp [h]
  have hrs : reqSuffix (some s) = "; " ++ s := by simp [reqSuffix, hs]
  refine ⟨addItemsUpdateRow (eItems ++ its)
    (existing.special_requests.getD "" ++ reqSuffix (some s)) existing, ?_, ?_⟩
  · rw [getOrderById_update db existing.id _ (addItemsUpdateRow_id _ _), hfind]
    rfl
  · show some (existing.special_requests.getD "" ++ reqSuffix (some s)) =
      some ("; " ++ s)
    rw [hgd, hrs]
    simp

/-- C10 witness: an order with NULL `special_requests` receives
`"extra spicy"`; the stored text becomes `"; extra spicy"`. -/
theorem C10_separator_with_empty_existing_witness :
    ∃ r2, getOrderById
        (addItemsHandler ⟨2, [⟨1, "T7", "[]", none, "placed", 1, false⟩]⟩
          "T7" (some (.arr [.null])) (some "extra spicy")).1 1 = some r2 ∧
      r2.special_requests = some "; extra spicy" := by
  obtain ⟨r2, ha, hb⟩ :=
    C10_separator_with_empty_existing
      ⟨2, [⟨1, "T7", "[]", none, "placed", 1, false⟩]⟩ "T7" [.null] "extra spicy"
      ⟨1, "T7", "[]", none, "placed", 1, false⟩ []
      (by simp) (by simp) (Or.inl rfl) (by rfl) (by rfl) (by rfl)
  exact ⟨r2, ha, by rw [hb]; rfl⟩

/-! ## Event-discipline infrastructure for C9 -/

/-- The emitted payload is the fully materialized post-mutation entity: a
row with the payload's id exists in the post store, every scalar field of
the payload equals that row's column, and the payload's `items` is the
parse of the row's stored `items_json`. -/
def payloadMatches (db' : Db) (p : Order) : Prop :=
  ∃ r, getOrderById db' p.id = some r ∧ p.table_no = r.table_no ∧
    p.items_json = r.items_json ∧ p.special_requests = r.special_requests ∧
    p.status = r.status ∧ p.created_at = r.created_at ∧ p.archived = r.archived ∧
    jsonParse (jsOrEmptyArr r.items_json) = some p.items

/-- Exhaustive output shapes of the create handler. -/
theorem create_shape (db : Db) (now : Nat) (tn : Option String)
    (it : Option Json) (sr : Option String) :
    (∃ msg, createOrderHandler db now tn it sr = (db, [], .badRequest msg)) ∨
    (∃ r, createOrderHandler db now tn it sr =
        (⟨db.nextId + 1, db.orders ++
          [⟨db.nextId, tn.getD "", jsonStringify (.arr (itemsArr it)),
            some (sr.getD ""), "placed", now, false⟩]⟩,
         [.write, .emit "order:placed" (mkOrder r (.arr (itemsArr it)))],
         .ok db.nextId) ∧
      getOrderById ⟨db.nextId + 1, db.orders ++
          [⟨db.nextId, tn.getD "", jsonStringify (.arr (itemsArr it)),
            some (sr.getD ""), "placed", now, false⟩]⟩ db.nextId = some r) := by
  by_cases hcond : (!truthyStr tn || !truthyJson it || !isArrayJ it) = true
  · exact Or.inl ⟨"table_no and items[] required", by simp [createOrderHandler, hcond]⟩
  · have hcf : (!truthyStr tn || !truthyJson it || !isArrayJ it) = false := by
      simpa using hcond
    obtain ⟨r, hr⟩ := getOrderById_append_self (db.nextId + 1) db.orders
      ⟨db.nextId, tn.getD "", jsonStringify (.arr (itemsArr it)), some (sr.getD ""),
        "placed", now, false⟩
    refine Or.inr ⟨r, ?_, hr⟩
    simp only [createOrderHandler, hcf, Bool.false_eq_true, if_false]
    rw [hr]

/-- Exhaustive output shapes of the add-items handler. -/
theorem addItems_shape (db : Db) (tn : String) (it : Option Json)
    (sr : Option String) :
    (∃ msg, addItemsHandler db tn it sr = (db, [], .badRequest msg)) ∨
    (∃ msg, addItemsHandler db tn it sr = (db, [], .notFound msg)) ∨
    (addItemsHandler db tn it sr = (db, [], .crash)) ∨
    (∃ db', addItemsHandler db tn it sr = (db', [.write], .crash)) ∨
    (∃ db' p, addItemsHandler db tn it sr =
        (db', [.write, .emit "order:items-added" p], .ok p) ∧
      payloadMatches db' p) := by
  by_cases hcond : (!truthyJson it || !isArrayJ it || (itemsLen it == 0)) = true
  · exact Or.inl ⟨"items[] required", by simp [addItemsHandler, hcond]⟩
  have hcf : (!truthyJson it || !isArrayJ it || (itemsLen it == 0)) = false := by
    simpa using hcond
  rcases hlat : latestActiveOrder db tn with _ | ex
  · exact Or.inr (Or.inl ⟨"no active order for this table",
      by simp [addItemsHandler, hcf, hlat]⟩)
  rcases hp : jsonParse (jsOrEmptyArr ex.items_json) with _ | j
  · exact Or.inr (Or.inr (Or.inl (by simp [addItemsHandler, hcf, hlat, hp])))
  cases j with
  | null => exact Or.inr (Or.inr (Or.inl (by simp [addItemsHandler, hcf, hlat, hp])))
  | bool b => exact Or.inr (Or.inr (Or.inl (by simp [addItemsHandler, hcf, hlat, hp])))
  | num n => exact Or.inr (Or.inr (Or.inl (by simp [addItemsHandler, hcf, hlat, hp])))
  | str s2 => exact Or.inr (Or.inr (Or.inl (by simp [addItemsHandler, hcf, hlat, hp])))
  | obj m => exact Or.inr (Or.inr (Or.inl (by simp [addItemsHandler, hcf, hlat, hp])))
  | arr e =>
    rcases hg : getOrderById (updateWhereId db ex.id
        (addItemsUpdateRow (e ++ itemsArr it)
          (ex.special_requests.getD "" ++ reqSuffix sr))) ex.id with _ | r2
    · refine Or.inr (Or.inr (Or.inr (Or.inl ⟨updateWhereId db ex.id
        (addItemsUpdateRow (e ++ itemsArr it)
          (ex.special_requests.getD "" ++ reqSuffix sr)), ?_⟩)))
      simp [addItemsHandler, hcf, hlat, hp, hg]
    rcases hj : jsonParse (jsOrEmptyArr r2.items_json) with _ | pj
    · refine Or.inr (Or.inr (Or.inr (Or.inl ⟨updateWhereId db ex.id
        (addItemsUpdateRow (e ++ itemsArr it)
          (ex.special_requests.getD "" ++ reqSuffix sr)), ?_⟩)))
      simp [addItemsHandler, hcf, hlat, hp, hg, hj]
    · refine Or.inr (Or.inr (Or.inr (Or.inr ⟨updateWhereId db ex.id
        (addItemsUpdateRow (e ++ itemsArr it)
          (ex.special_requests.getD "" ++ reqSuffix sr)), mkOrder r2 pj, ?_, ?_⟩)))
      · simp [addItemsHandler, hcf, hlat, hp, hg, hj]
      · have hid : (r2.id == ex.id) = true :=
          @List.find?_some _ (fun (r : OrderRow) => r.id == ex.id) r2 _ hg
        have hid2 : r2.id = ex.id := by simpa using hid
        refine ⟨r2, ?_, rfl, rfl, rfl, rfl, rfl, rfl, hj⟩
        show getOrderById _ r2.id = some r2
        rw [hid2]
        exact hg

/-- Exhaustive output shapes of the status handler. -/
theorem setStatus_shape (db : Db) (id : Nat) (st : Option String) :
    (setStatusHandler db id st = (db, [], .badRequest "invalid status")) ∨
    (∃ db', setStatusHandler db id st = (db', [.write], .crash)) ∨
    (∃ db' p, setStatusHandler db id st =
        (db', [.write, .emit "order:status-changed" p], .ok ()) ∧
      payloadMatches db' p) := by
  cases st with
  | none => exact Or.inl rfl
  | some s =>
    by_cases hc : statusValues.contains s = true
    · rcases hg : getOrderById (updateWhereId db id (statusUpdateRow s)) id with _ | r2
      · refine Or.inr (Or.inl ⟨updateWhereId db id (statusUpdateRow s), ?_⟩)
        simp only [setStatusHandler, hc, Bool.not_true, Bool.false_eq_true, if_false]
        simp [hg]
      rcases hj : jsonParse (jsOrEmptyArr r2.items_json) with _ | pj
      · refine Or.inr (Or.inl ⟨updateWhereId db id (statusUpdateRow s), ?_⟩)
        simp only [setStatusHandler, hc, Bool.not_true, Bool.false_eq_true, if_false]
        simp [hg, hj]
      · refine Or.inr (Or.inr ⟨updateWhereId db id (statusUpdateRow s),
          mkOrder r2 pj, ?_, ?_⟩)
        · simp only [setStatusHandler, hc, Bool.not_true, Bool.false_eq_true, if_false]
          simp [hg, hj]
        · have hid : (r2.id == id) = true :=
            @List.find?_some _ (fun (r : OrderRow) => r.id == id) r2 _ hg
          have hid2 : r2.id = id := by simpa using hid
          refine ⟨r2, ?_, rfl, rfl, rfl, rfl, rfl, rfl, hj⟩
          show getOrderById _ r2.id = some r2
          rw [hid2]
          exact hg
    · have hnmem : s ∉ statusValues := by simpa using hc
      exact Or.inl (by simp [setStatusHandler, hnmem])

/-- Exhaustive output shapes of the bill handler. -/
theorem bill_shape (db : Db) (id : Nat) :
    (∃ db', billHandler db id = (db', [.write], .crash)) ∨
    (∃ db' p, billHandler db id =
        (db', [.write, .emit "order:billed" p], .ok ()) ∧
      payloadMatches db' p) := by
  rcases hg : getOrderById (updateWhereId db id billUpdateRow) id with _ | r2
  · exact Or.inl ⟨updateWhereId db id billUpdateRow, by simp [billHandler, hg]⟩
  rcases hj : jsonParse (jsOrEmptyArr r2.items_json) with _ | pj
  · exact Or.inl ⟨updateWhereId db id billUpdateRow, by simp [billHandler, hg, hj]⟩
  · refine Or.inr ⟨updateWhereId db id billUpdateRow, mkOrder r2 pj,
      by simp [billHandler, hg, hj], ?_⟩
    have hid : (r2.id == id) = true :=
      @List.find?_some _ (fun (r : OrderRow) => r.id == id) r2 _ hg
    have hid2 : r2.id = id := by simpa using hid
    refine ⟨r2, ?_, rfl, rfl, rfl, rfl, rfl, rfl, hj⟩
    show getOrderById _ r2.id = some r2
    rw [hid2]
    exact hg

/-- C9: broadcasting discipline of the mutating order handlers.  A call
that fails validation emits no event (its action trace is empty, so there
is no write either); a successful call emits exactly one event, after the
single committed write, with the catalog name of its operation, and the
payload is the fully materialized post-mutation entity (`payloadMatches`).
For create, the freshness hypothesis is the AUTOINCREMENT invariant that no
stored row already carries the next id. -/
theorem C9_broadcast_after_write (db : Db) :
    (∀ (now : Nat) (tn : Option String) (it : Option Json) (sr : Option String),
      isBadRequest (createOrderHandler db now tn it sr).2.2 = true →
        (createOrderHandler db now tn it sr).2.1 = []) ∧
    (∀ (now : Nat) (tn : Option String) (it : Option Json) (sr : Option String)
        (rid : Nat),
      (∀ r ∈ db.orders, r.id ≠ db.nextId) →
      (createOrderHandler db now tn it sr).2.2 = .ok rid →
        ∃ p, (createOrderHandler db now tn it sr).2.1 =
            [.write, .emit "order:placed" p] ∧
          payloadMatches (createOrderHandler db now tn it sr).1 p) ∧
    (∀ (tn : String) (it : Option Json) (sr : Option String),
      isBadRequest (addItemsHandler db tn it sr).2.2 = true →
        (addItemsHandler db tn it sr).2.1 = []) ∧
    (∀ (tn : String) (it : Option Json) (sr : Option String) (ord : Order),
      (addItemsHandler db tn it sr).2.2 = .ok ord →
        ∃ p, (addItemsHandler db tn it sr).2.1 =
            [.write, .emit "order:items-added" p] ∧
          payloadMatches (addItemsHandler db tn it sr).1 p) ∧
    (∀ (id : Nat) (st : Option String),
      isBadRequest (setStatusHandler db id st).2.2 = true →
        (setStatusHandler db id st).2.1 = []) ∧
    (∀ (id : Nat) (st : Option String),
      (setStatusHandler db id st).2.2 = .ok () →
        ∃ p, (setStatusHandler db id st).2.1 =
            [.write, .emit "order:status-changed" p] ∧
          payloadMatches (setStatusHandler db id st).1 p) ∧
    (∀ id : Nat,
      (billHandler db id).2.2 = .ok () →
        ∃ p, (billHandler db id).2.1 = [.write, .emit "order:billed" p] ∧
          payloadMatches (billHandler db id).1 p) := by
  refine ⟨?_, ?_, ?_, ?_, ?_, ?_, ?_⟩
  · intro now tn it sr h
    rcases create_shape db now tn it sr with ⟨msg, he⟩ | ⟨r, he, hgr⟩
    · rw [he]
    · rw [he] at h
      exact absurd h (by simp [isBadRequest])
  · intro now tn it sr rid hfresh hok
    rcases create_shape db now tn it sr with ⟨msg, he⟩ | ⟨r, he, hgr⟩
    · rw [he] at hok
      exact absurd hok (by simp)
    · have hg2 := getOrderById_append_fresh (db.nextId + 1) db.orders
        ⟨db.nextId, tn.getD "", jsonStringify (.arr (itemsArr it)), some (sr.getD ""),
          "placed", now, false⟩ (fun r hr => hfresh r hr)
      have hsome : some r =
          some (⟨db.nextId, tn.getD "", jsonStringify (.arr (itemsArr it)),
            some (sr.getD ""), "placed", now, false⟩ : OrderRow) :=
        hgr.symm.trans hg2
      have hr : r = ⟨db.nextId, tn.getD "", jsonStringify (.arr (itemsArr it)),
          some (sr.getD ""), "placed", now, false⟩ := Option.some.inj hsome
      subst hr
      refine ⟨mkOrder ⟨db.nextId, tn.getD "", jsonStringify (.arr (itemsArr it)),
        some (sr.getD ""), "placed", now, false⟩ (.arr (itemsArr it)), ?_, ?_⟩
      · rw [he]
      · rw [he]
        refine ⟨⟨db.nextId, tn.getD "", jsonStringify (.arr (itemsArr it)),
          some (sr.getD ""), "placed", now, false⟩, ?_, rfl, rfl, rfl, rfl, rfl, rfl, ?_⟩
        · exact hgr
        · exact jsonParse_stored (.arr (itemsArr it))
  · intro tn it sr h
    rcases addItems_shape db tn it sr with
      ⟨m, he⟩ | ⟨m, he⟩ | he | ⟨d, he⟩ | ⟨d, p, he, hpm⟩
    · rw [he]
    · rw [he] at h
      exact absurd h (by simp [isBadRequest])
    · rw [he] at h
      exact absurd h (by simp [isBadRequest])
    · rw [he] at h
      exact absurd h (by simp [isBadRequest])
    · rw [he] at h
      exact absurd h (by simp [isBadRequest])
  · intro tn it sr ord hok
    rcases addItems_shape db tn it sr with
      ⟨m, he⟩ | ⟨m, he⟩ | he | ⟨d, he⟩ | ⟨d, p, he, hpm⟩
    · rw [he] at hok
      exact absurd hok (by simp)
    · rw [he] at hok
      exact absurd hok (by simp)
    · rw [he] at hok
      exact absurd hok (by simp)
    · rw [he] at hok
      exact absurd hok (by simp)
    · refine ⟨p, ?_, ?_⟩
      · rw [he]
      · rw [he]
        exact hpm
  · intro id st h
    rcases setStatus_shape db id st with he | ⟨d, he⟩ | ⟨d, p, he, hpm⟩
    · rw [he]
    · rw [he] at h
      exact absurd h (by simp [isBadRequest])
    · rw [he] at h
      exact absurd h (by simp [isBadRequest])
  · intro id st hok
    rcases setStatus_shape db id st with he | ⟨d, he⟩ | ⟨d, p, he, hpm⟩
    · rw [he] at hok
      exact absurd hok (by simp)
    · rw [he] at hok
      exact absurd hok (by simp)
    · refine ⟨p, ?_, ?_⟩
      · rw [he]
      · rw [he]
        exact hpm
  · intro id hok
    rcases bill_shape db id with ⟨d, he⟩ | ⟨d, p, he, hpm⟩
    · rw [he] at hok
      exact absurd hok (by simp)
    · refine ⟨p, ?_, ?_⟩
      · rw [he]
      · rw [he]
        exact hpm

/-- C9 witness: a create call that fails validation (empty body) emits
nothing, and a successful bill call on a one-order store emits exactly the
`order:billed` event after the write, with a matching payload. -/
theorem C9_broadcast_after_write_witness :
    ((createOrderHandler ⟨1, []⟩ 0 none none none).2.1 = []) ∧
    (∃ p, (billHandler ⟨2, [⟨1, "T1", "[]", some "", "placed", 1, false⟩]⟩ 1).2.1 =
        [.write, .emit "order:billed" p] ∧
      payloadMatches
        (billHandler ⟨2, [⟨1, "T1", "[]", some "", "placed", 1, false⟩]⟩ 1).1 p) := by
  constructor
  · exact (C9_broadcast_after_write ⟨1, []⟩).1 0 none none none (by rfl)
  · exact (C9_broadcast_after_write
      ⟨2, [⟨1, "T1", "[]", some "", "placed", 1, false⟩]⟩).2.2.2.2.2.2 1 (by rfl)

end KDS
